import Mathlib

/-!
# Amass orchestration core: service lifecycle, source dispatcher, subdomain service

A shallow embedding of `amass/core/service.go`, `amass/srcsrv.go` and
`amass/subsrv.go`.  Go strings are lists of characters, Go `int` and
`time.Duration` are integers wrapped to 64 bits, mutable receivers are passed
explicitly, and everything a method does to the outside world (hook calls,
channel operations, bus publications) is appended to an explicit log.
-/

namespace Amass

/-- Go strings, as sequences of characters. -/
abbrev Str := List Char

/-- Wrap-around of a mathematical integer into the range of a 64-bit Go `int`. -/
def wrapInt (x : Int) : Int := (x + 2 ^ 63) % 2 ^ 64 - 2 ^ 63

/-! ## core/service.go -/

/-- Go `error` values that the lifecycle methods can return.  `errors.New` allocates a
fresh value at every call, so an error built inside `Start`/`Stop` is never the value a
hook returned: the origin is part of the value. -/
inductive Err where
  /-- built by `errors.New` inside `BaseAmassService.Start` or `Stop` -/
  | usage (msg : Str)
  /-- returned by a hook of the embedding service -/
  | hook (msg : Str)
deriving DecidableEq, Repr

/-- What a lifecycle method does besides updating the flags, in program order. -/
inductive LifeEvent where
  /-- the call `bas.service.OnStart()`, with the value of `bas.started` at that moment -/
  | hookOnStart (startedFlag : Bool)
  /-- the call `bas.service.OnPause()` -/
  | hookOnPause
  /-- the call `bas.service.OnResume()` -/
  | hookOnResume
  /-- the call `bas.service.OnStop()` -/
  | hookOnStop
  /-- the spawned send on `bas.pause` -/
  | goSendPause
  /-- the spawned send on `bas.resume` -/
  | goSendResume
  /-- the statement `close(bas.quit)` -/
  | closeQuit
deriving DecidableEq, Repr

/-- The fields of `BaseAmassService` that the lifecycle and liveness methods touch.
`active` is a `time.Time` in nanoseconds; `log` records hook calls and channel
operations. -/
structure BaseAmassService where
  name : Str
  started : Bool
  stopped : Bool
  active : Int
  log : List LifeEvent
deriving DecidableEq, Repr

/-- The hooks of the embedding `AmassService`.  The flags `started` and `stopped` are
unexported fields of package `core`, so a hook can read the service (through its
methods) but cannot write the flags; a hook is a function of the service to its
returned error, `none` being `nil`. -/
structure Hooks where
  onStart : BaseAmassService → Option Str
  onPause : BaseAmassService → Option Str
  onResume : BaseAmassService → Option Str
  onStop : BaseAmassService → Option Str

/-- Go `time.Second` in nanoseconds. -/
def second : Int := 1000000000

/-- The largest `time.Duration`. -/
def maxDuration : Int := 2 ^ 63 - 1

/-- The smallest `time.Duration`. -/
def minDuration : Int := -(2 ^ 63)

/-- Go `Time.Sub`: the difference of two instants, saturated to the range of a
`time.Duration`. -/
def timeSub (t u : Int) : Int :=
  if t - u > maxDuration then maxDuration
  else if t - u < minDuration then minDuration
  else t - u

/-- Constructor `NewBaseAmassService`, with `time.Now()` passed as `now`. -/
def NewBaseAmassService (name : Str) (now : Int) : BaseAmassService :=
  { name := name, started := false, stopped := false, active := now, log := [] }

namespace BaseAmassService

/-- Method `isStarted`: reads the `started` flag. -/
def isStarted (bas : BaseAmassService) : Bool := bas.started

/-- Method `isStopped`: reads the `stopped` flag. -/
def isStopped (bas : BaseAmassService) : Bool := bas.stopped

/-- Appends one event to the log. -/
def emit (bas : BaseAmassService) (e : LifeEvent) : BaseAmassService :=
  { bas with log := bas.log ++ [e] }

/-- Method `Start`: rejects a started or stopped service, otherwise sets `started` and then
returns what `OnStart` returns. -/
def Start (h : Hooks) (bas : BaseAmassService) : BaseAmassService × Option Err :=
  if bas.isStarted then
    (bas, some (Err.usage (bas.name ++ " service has already been started".toList)))
  else if bas.isStopped then
    (bas, some (Err.usage (bas.name ++ " service has been stopped".toList)))
  else
    let bas1 := { bas with started := true }
    (bas1.emit (LifeEvent.hookOnStart bas1.started), (h.onStart bas1).map Err.hook)

/-- Method `Pause`: calls `OnPause`, spawns the send on the pause channel, returns the hook's
error. -/
def Pause (h : Hooks) (bas : BaseAmassService) : BaseAmassService × Option Err :=
  let err := h.onPause bas
  (((bas.emit LifeEvent.hookOnPause).emit LifeEvent.goSendPause), err.map Err.hook)

/-- Method `Resume`: calls `OnResume`, spawns the send on the resume channel, returns the
hook's error. -/
def Resume (h : Hooks) (bas : BaseAmassService) : BaseAmassService × Option Err :=
  let err := h.onResume bas
  (((bas.emit LifeEvent.hookOnResume).emit LifeEvent.goSendResume), err.map Err.hook)

/-- Method `Stop`: rejects a stopped service, otherwise forces a `Resume` (its result is
dropped), calls `OnStop`, sets `stopped` and closes the quit channel. -/
def Stop (h : Hooks) (bas : BaseAmassService) : BaseAmassService × Option Err :=
  if bas.isStopped then
    (bas, some (Err.usage (bas.name ++ " service has already been stopped".toList)))
  else
    let bas1 := (bas.Resume h).1
    let err := h.onStop bas1
    let bas2 := bas1.emit LifeEvent.hookOnStop
    let bas3 := { bas2 with stopped := true }
    (bas3.emit LifeEvent.closeQuit, err.map Err.hook)

/-- Method `IsActive`, with `time.Now()` passed as `now`. -/
def IsActive (bas : BaseAmassService) (now : Int) : Bool :=
  if timeSub now bas.active > 10 * second then false else true

/-- Method `SetActive`, with `time.Now()` passed as `now`. -/
def SetActive (bas : BaseAmassService) (now : Int) : BaseAmassService :=
  { bas with active := now }

/-- How many times `close(bas.quit)` has been executed. -/
def quitCloses (bas : BaseAmassService) : Nat := bas.log.count LifeEvent.closeQuit

end BaseAmassService

/-- The four lifecycle calls a client can make. -/
inductive Call where
  | start
  | pause
  | resume
  | stop
deriving DecidableEq, Repr

/-- One lifecycle call. -/
def doCall (h : Hooks) (bas : BaseAmassService) : Call → BaseAmassService × Option Err
  | Call.start => bas.Start h
  | Call.pause => bas.Pause h
  | Call.resume => bas.Resume h
  | Call.stop => bas.Stop h

/-- The service after a sequence of lifecycle calls, made one after the other. -/
def runCalls (h : Hooks) (bas : BaseAmassService) : List Call → BaseAmassService
  | [] => bas
  | c :: cs => runCalls h (doCall h bas c).1 cs

/-- The service after a sequence of `SetActive` calls made at the given instants. -/
def markAll (bas : BaseAmassService) : List Int → BaseAmassService
  | [] => bas
  | t :: ts => markAll (bas.SetActive t) ts

/-- The hooks of `BaseAmassService` itself (`OnStart`, `OnPause`, `OnResume`, `OnStop`
of `service.go`): placeholders that return `nil`. -/
def baseHooks : Hooks :=
  { onStart := fun _ => none, onPause := fun _ => none,
    onResume := fun _ => none, onStop := fun _ => none }

/-! ## Go library functions used by the two services

Strings are sequences of Unicode code points (valid UTF-8).  `strings.ToLower` maps every
code point with `unicode.ToLower`, whose table of case ranges is reproduced below. -/

/-- Go `unicode.IsSpace`: the white-space characters that `strings.TrimSpace` removes. -/
def isSpace (c : Char) : Bool :=
  (9 ≤ c.toNat && c.toNat ≤ 13) || c.toNat = 32 || c.toNat = 133 || c.toNat = 160 ||
  c.toNat = 5760 || (8192 ≤ c.toNat && c.toNat ≤ 8202) || c.toNat = 8232 ||
  c.toNat = 8233 || c.toNat = 8239 || c.toNat = 8287 || c.toNat = 12288

/-- Function `strings.TrimSpace`: removes leading and trailing white space. -/
def TrimSpace (s : Str) : Str := (s.dropWhile isSpace).rdropWhile isSpace

/-- The lower-case column of the case ranges of Go's package `unicode` (the simple
lower-case mapping of the Unicode Character Database, version 14.0; the dotted capital I,
code point 304, maps to `i`), for the code points above ASCII.  An entry
`(lo, hi, stride, delta)` says that the code points `lo`, `lo + stride`, ... up to `hi`
have the lower-case form `delta` places further on; code points in no entry are their
own lower-case form. -/
def lowerCaseRanges : List (Nat × Nat × Nat × Int) :=
  [(192, 214, 1, 32), (216, 222, 1, 32), (256, 302, 2, 1), (304, 304, 1, -199), (306, 310, 2, 1),
   (313, 327, 2, 1), (330, 374, 2, 1), (376, 376, 1, -121), (377, 381, 2, 1), (385, 385, 1, 210),
   (386, 388, 2, 1), (390, 390, 1, 206), (391, 391, 1, 1), (393, 394, 1, 205), (395, 395, 1, 1),
   (398, 398, 1, 79), (399, 399, 1, 202), (400, 400, 1, 203), (401, 401, 1, 1),
   (403, 403, 1, 205), (404, 404, 1, 207), (406, 406, 1, 211), (407, 407, 1, 209),
   (408, 408, 1, 1), (412, 412, 1, 211), (413, 413, 1, 213), (415, 415, 1, 214),
   (416, 420, 2, 1), (422, 422, 1, 218), (423, 423, 1, 1), (425, 425, 1, 218), (428, 428, 1, 1),
   (430, 430, 1, 218), (431, 431, 1, 1), (433, 434, 1, 217), (435, 437, 2, 1),
   (439, 439, 1, 219), (440, 440, 1, 1), (444, 444, 1, 1), (452, 452, 1, 2), (453, 453, 1, 1),
   (455, 455, 1, 2), (456, 456, 1, 1), (458, 458, 1, 2), (459, 475, 2, 1), (478, 494, 2, 1),
   (497, 497, 1, 2), (498, 500, 2, 1), (502, 502, 1, -97), (503, 503, 1, -56), (504, 542, 2, 1),
   (544, 544, 1, -130), (546, 562, 2, 1), (570, 570, 1, 10795), (571, 571, 1, 1),
   (573, 573, 1, -163), (574, 574, 1, 10792), (577, 577, 1, 1), (579, 579, 1, -195),
   (580, 580, 1, 69), (581, 581, 1, 71), (582, 590, 2, 1), (880, 882, 2, 1), (886, 886, 1, 1),
   (895, 895, 1, 116), (902, 902, 1, 38), (904, 906, 1, 37), (908, 908, 1, 64),
   (910, 911, 1, 63), (913, 929, 1, 32), (931, 939, 1, 32), (975, 975, 1, 8), (984, 1006, 2, 1),
   (1012, 1012, 1, -60), (1015, 1015, 1, 1), (1017, 1017, 1, -7), (1018, 1018, 1, 1),
   (1021, 1023, 1, -130), (1024, 1039, 1, 80), (1040, 1071, 1, 32), (1120, 1152, 2, 1),
   (1162, 1214, 2, 1), (1216, 1216, 1, 15), (1217, 1229, 2, 1), (1232, 1326, 2, 1),
   (1329, 1366, 1, 48), (4256, 4293, 1, 7264), (4295, 4295, 1, 7264), (4301, 4301, 1, 7264),
   (5024, 5103, 1, 38864), (5104, 5109, 1, 8), (7312, 7354, 1, -3008), (7357, 7359, 1, -3008),
   (7680, 7828, 2, 1), (7838, 7838, 1, -7615), (7840, 7934, 2, 1), (7944, 7951, 1, -8),
   (7960, 7965, 1, -8), (7976, 7983, 1, -8), (7992, 7999, 1, -8), (8008, 8013, 1, -8),
   (8025, 8031, 2, -8), (8040, 8047, 1, -8), (8072, 8079, 1, -8), (8088, 8095, 1, -8),
   (8104, 8111, 1, -8), (8120, 8121, 1, -8), (8122, 8123, 1, -74), (8124, 8124, 1, -9),
   (8136, 8139, 1, -86), (8140, 8140, 1, -9), (8152, 8153, 1, -8), (8154, 8155, 1, -100),
   (8168, 8169, 1, -8), (8170, 8171, 1, -112), (8172, 8172, 1, -7), (8184, 8185, 1, -128),
   (8186, 8187, 1, -126), (8188, 8188, 1, -9), (8486, 8486, 1, -7517), (8490, 8490, 1, -8383),
   (8491, 8491, 1, -8262), (8498, 8498, 1, 28), (8544, 8559, 1, 16), (8579, 8579, 1, 1),
   (9398, 9423, 1, 26), (11264, 11311, 1, 48), (11360, 11360, 1, 1), (11362, 11362, 1, -10743),
   (11363, 11363, 1, -3814), (11364, 11364, 1, -10727), (11367, 11371, 2, 1),
   (11373, 11373, 1, -10780), (11374, 11374, 1, -10749), (11375, 11375, 1, -10783),
   (11376, 11376, 1, -10782), (11378, 11378, 1, 1), (11381, 11381, 1, 1),
   (11390, 11391, 1, -10815), (11392, 11490, 2, 1), (11499, 11501, 2, 1), (11506, 11506, 1, 1),
   (42560, 42604, 2, 1), (42624, 42650, 2, 1), (42786, 42798, 2, 1), (42802, 42862, 2, 1),
   (42873, 42875, 2, 1), (42877, 42877, 1, -35332), (42878, 42886, 2, 1), (42891, 42891, 1, 1),
   (42893, 42893, 1, -42280), (42896, 42898, 2, 1), (42902, 42920, 2, 1),
   (42922, 42922, 1, -42308), (42923, 42923, 1, -42319), (42924, 42924, 1, -42315),
   (42925, 42925, 1, -42305), (42926, 42926, 1, -42308), (42928, 42928, 1, -42258),
   (42929, 42929, 1, -42282), (42930, 42930, 1, -42261), (42931, 42931, 1, 928),
   (42932, 42946, 2, 1), (42948, 42948, 1, -48), (42949, 42949, 1, -42307),
   (42950, 42950, 1, -35384), (42951, 42953, 2, 1), (42960, 42960, 1, 1), (42966, 42968, 2, 1),
   (42997, 42997, 1, 1), (65313, 65338, 1, 32), (66560, 66599, 1, 40), (66736, 66771, 1, 40),
   (66928, 66938, 1, 39), (66940, 66954, 1, 39), (66956, 66962, 1, 39), (66964, 66965, 1, 39),
   (68736, 68786, 1, 64), (71840, 71871, 1, 32), (93760, 93791, 1, 32), (125184, 125217, 1, 34)]

/-- Go `unicode.ToLower`: ASCII capitals move 32 places up, other ASCII characters stay,
and the code points above ASCII are looked up in the case ranges. -/
def unicodeToLower (c : Char) : Char :=
  if c.toNat < 128 then c.toLower
  else
    match lowerCaseRanges.find?
        (fun r => decide (r.1 ≤ c.toNat ∧ c.toNat ≤ r.2.1 ∧ (c.toNat - r.1) % r.2.2.1 = 0)) with
    | some r => Char.ofNat ((c.toNat : Int) + r.2.2.2).toNat
    | none => c

/-- Function `strings.ToLower`: every code point is replaced by its lower-case form. -/
def ToLower (s : Str) : Str := s.map unicodeToLower

/-- Go `strings.Split(s, sep)` for a separator of one character. -/
def Split : Str → Char → List Str
  | [], _ => [[]]
  | c :: cs, sep =>
    if c = sep then [] :: Split cs sep
    else match Split cs sep with
      | [] => [[c]]
      | l :: ls => (c :: l) :: ls

/-- Go `strings.Join(elems, sep)` for a separator of one character. -/
def Join : List Str → Char → Str
  | [], _ => []
  | [l], _ => l
  | l :: l2 :: ls, sep => l ++ sep :: Join (l2 :: ls) sep

/-! ## Data shared by the services -/

/-- The fields of `core.AmassRequest` that the services read and write.  The contents
of a resolution record are never inspected, only their number. -/
structure AmassRequest where
  Name : Str
  Domain : Str
  Records : List Str
  Tag : Str
  Source : Str
deriving DecidableEq, Repr

/-- The fields of `core.AmassOutput` that `performRequest` fills in. -/
structure AmassOutput where
  Name : Str
  Domain : Str
  Tag : Str
  Source : Str
deriving DecidableEq, Repr

/-- What the methods of the two services do to the outside world: publications on the
event bus (one constructor per topic), channel sends, and operations on the `MaxFlow`
semaphore of the configuration. -/
inductive Effect where
  /-- The call `bus.Publish(core.OUTPUT, out)` -/
  | publishOutput (out : AmassOutput)
  /-- The call `bus.Publish(core.DNSQUERY, req)` -/
  | publishDNSQuery (req : AmassRequest)
  /-- The call `bus.Publish(core.NEWSUB, req, times)` -/
  | publishNewSub (req : AmassRequest) (times : Int)
  /-- The call `bus.Publish(core.NEWNAME, req)` -/
  | publishNewName (req : AmassRequest)
  /-- The call `bus.Publish(core.CHECKED, req)` -/
  | publishChecked (req : AmassRequest)
  /-- a send on `ss.releases` (`sendRelease`) -/
  | release
  /-- a send on `ss.completions` (`sendCompletionTime`) -/
  | completion (t : Int)
  /-- The call `MaxFlow.Acquire(1)` -/
  | maxFlowAcquire
  /-- The call `MaxFlow.Release(1)` -/
  | maxFlowRelease
  /-- The call `ss.SendRequest(req)`: the request is put on the service's own queue -/
  | sendRequest (req : AmassRequest)
deriving DecidableEq, Repr

/-- The part of `core.AmassConfig` that the services consult: the passive-mode flag,
the scope predicate `IsDomainInScope`, the root domains, and the graph lookup
`Graph().CNAMENode(sub) != nil`. -/
structure AmassConfig where
  Passive : Bool
  IsDomainInScope : Str → Bool
  Domains : List Str
  CNAMENode : Str → Bool

/-- Modelled from the spec: `utils.StringFilter`, the seen-set filter ("a set of
previously admitted keys enforcing at-most-once processing"); the type and its
`Duplicate` method are not among the sources. -/
structure StringFilter where
  seen : List Str
deriving DecidableEq, Repr

/-- Modelled from the spec: `utils.NewStringFilter`, the empty filter. -/
def NewStringFilter : StringFilter := { seen := [] }

/-- Modelled from the spec: `StringFilter.Duplicate` reports whether the key was
admitted before and admits it if it was not. -/
def StringFilter.Duplicate (sf : StringFilter) (s : Str) : StringFilter × Bool :=
  if s ∈ sf.seen then (sf, true) else ({ seen := s :: sf.seen }, false)

/-! ## subsrv.go -/

/-- The state of `SubdomainService`: the embedded base service, the dedup filter, the
`subdomains` counter map, and the log of effects. -/
structure SubdomainService where
  base : BaseAmassService
  filter : StringFilter
  subdomains : Str → Option Int
  log : List Effect

/-- Constructor `NewSubdomainService`, with `time.Now()` passed as `now`. -/
def NewSubdomainService (now : Int) : SubdomainService :=
  { base := NewBaseAmassService "Subdomain Service".toList now,
    filter := NewStringFilter,
    subdomains := fun _ => none,
    log := [] }

namespace SubdomainService

/-- Appends one effect to the log. -/
def emit (ss : SubdomainService) (e : Effect) : SubdomainService :=
  { ss with log := ss.log ++ [e] }

/-- Method `sendRelease`: one send on `ss.releases`. -/
def sendRelease (ss : SubdomainService) : SubdomainService := ss.emit Effect.release

/-- Method `timesForSubdomain`: increments (or starts at 1) the counter of `sub`, stores it
and returns it. -/
def timesForSubdomain (ss : SubdomainService) (sub : Str) : SubdomainService × Int :=
  let times : Int :=
    match ss.subdomains sub with
    | some t => wrapInt (t + 1)
    | none => 1
  ({ ss with subdomains := fun k => if k = sub then some times else ss.subdomains k }, times)

/-- Method `checkSubdomain`: the label tests, the alias lookup, and the `NEWSUB`
publication with the occurrence counter. -/
def checkSubdomain (cfg : AmassConfig) (ss : SubdomainService) (req : AmassRequest) :
    SubdomainService :=
  let labels := Split req.Name '.'
  let num := labels.length
  if num < 2 then ss
  else if num - 1 < (Split req.Domain '.').length then ss
  else if labels.getD 1 [] = "_tcp".toList ∨ labels.getD 1 [] = "_udp".toList
      ∨ labels.getD 1 [] = "_tls".toList then ss
  else
    let sub := Join (labels.drop 1) '.'
    if cfg.CNAMENode sub then ss
    else
      let r := ss.timesForSubdomain sub
      r.1.emit (Effect.publishNewSub
        { Name := sub, Domain := req.Domain, Records := [], Tag := req.Tag,
          Source := req.Source } r.2)

/-- Method `performRequest`.  `req = none` is the `nil` request; `RemoveAsteriskLabel` is
`utils.RemoveAsteriskLabel`, which is not among the sources and is taken as a
parameter; `now1` and `now2` are the two readings of `time.Now()`. -/
def performRequest (cfg : AmassConfig) (RemoveAsteriskLabel : Str → Str) (now1 now2 : Int)
    (ss : SubdomainService) (req : Option AmassRequest) : SubdomainService :=
  match req with
  | none => ss.sendRelease
  | some r =>
    if r.Name = [] ∨ r.Domain = [] then ss.sendRelease
    else
      let ss1 := { ss with base := ss.base.SetActive now1 }
      let ss2 := ss1.emit (Effect.completion now2)
      let r1 := { r with Name := ToLower (RemoveAsteriskLabel r.Name) }
      let r2 := { r1 with Domain := ToLower r1.Domain }
      if cfg.Passive then
        let d := ss2.filter.Duplicate r2.Name
        let ss3 := { ss2 with filter := d.1 }
        let ss4 :=
          if !d.2 then
            ss3.emit (Effect.publishOutput
              { Name := r2.Name, Domain := r2.Domain, Tag := r2.Tag, Source := r2.Source })
          else ss3
        ss4.sendRelease
      else ss2.emit (Effect.publishDNSQuery r2)

end SubdomainService

/-- The two cases of the `select` in `processReleases` that do not end the loop. -/
inductive RelEvent where
  /-- the ticker fired (`<-t.C`) -/
  | tick
  /-- a release signal was received (`<-ss.releases`) -/
  | signal
deriving DecidableEq, Repr

/-- The local state of `processReleases`: the counter `rcount`, and how many times
`MaxFlow.Release(1)` has been called. -/
structure RelState where
  rcount : Int
  released : Nat
deriving DecidableEq, Repr

/-- One iteration of the loop of `processReleases`. -/
def processReleasesStep (st : RelState) : RelEvent → RelState
  | RelEvent.tick =>
    if st.rcount > 0 then
      { rcount := wrapInt (st.rcount - 1), released := st.released + 1 }
    else st
  | RelEvent.signal => { st with rcount := wrapInt (st.rcount + 1) }

/-- The loop of `processReleases` over the cases taken before the quit channel
closes, from `rcount = 0`. -/
def processReleases (evs : List RelEvent) : RelState :=
  evs.foldl processReleasesStep { rcount := 0, released := 0 }

/-- The values returned by a sequence of `timesForSubdomain` calls, and the service
after them. -/
def timesRun (ss : SubdomainService) : List Str → SubdomainService × List Int
  | [] => (ss, [])
  | sub :: rest =>
    let r := ss.timesForSubdomain sub
    let r2 := timesRun r.1 rest
    (r2.1, r.2 :: r2.2)

/-- The service after `performRequest` has handled the calls one after the other;
each call comes with its two clock readings. -/
def performAll (cfg : AmassConfig) (ral : Str → Str) (ss : SubdomainService) :
    List (Int × Int × Option AmassRequest) → SubdomainService
  | [] => ss
  | c :: cs => performAll cfg ral (ss.performRequest cfg ral c.1 c.2.1 c.2.2) cs

/-- The `OUTPUT` records in a log, in publication order. -/
def outputsOf : List Effect → List AmassOutput
  | [] => []
  | Effect.publishOutput o :: es => o :: outputsOf es
  | _ :: es => outputsOf es

/-! ## srcsrv.go -/

/-- The alternatives of `nameStripRE`, the regular expression
`^((20)|(25)|(2f)|(3d)|(40))+`. -/
def artifactCodes : List Str :=
  [['2', '0'], ['2', '5'], ['2', 'f'], ['3', 'd'], ['4', '0']]

/-- The number of characters that `((20)|(25)|(2f)|(3d)|(40))*` matches at the start of
a string.  The alternatives are five different strings of two characters, so at most
one of them matches at a position, and the greedy repetition takes every one it can. -/
def codeRun : Str → Nat
  | a :: b :: r => if [a, b] ∈ artifactCodes then 2 + codeRun r else 0
  | _ => 0

/-- Go `nameStripRE.FindStringIndex(s)`: the bounds of the match, which starts at 0 and
needs at least one code; `none` is `nil`. -/
def FindStringIndex (s : Str) : Option (Nat × Nat) :=
  if codeRun s = 0 then none else some (0, codeRun s)

/-- The first statement of `handleOutput`: the name without the match of `nameStripRE`. -/
def stripName (name : Str) : Str :=
  match FindStringIndex name with
  | some i => name.drop i.2
  | none => name

/-- The clean-up of `req.Name` at the top of `handleOutput`: strip the match of
`nameStripRE`, lower-case, trim white space, and remove one leading dot from a name
longer than one character.  (A name whose first byte is a dot has more than one byte
exactly when it has more than one character.) -/
def cleanName (name : Str) : Str :=
  let name2 := TrimSpace (ToLower (stripName name))
  if name2.length > 1 ∧ name2.head? = some '.' then name2.drop 1 else name2

/-- A `sources.DataSource`: `String()`, `Type()`, `Subdomains()` and `Query`. -/
structure DataSource where
  Name : Str
  SourceType : Str
  Subdomains : Bool
  Query : Str → Str → List Str

/-- The `entry` of the throttle queue. -/
structure entry where
  Source : DataSource
  Domain : Str
  Sub : Str

/-- The state of `SourcesService`. -/
structure SourcesService where
  base : BaseAmassService
  directs : List DataSource
  throttles : List DataSource
  throttleQueue : List entry
  filter : StringFilter
  outfilter : StringFilter
  log : List Effect

/-- Constructor `NewSourcesService`, with the result of `sources.GetAllSources`, the constant
`core.ARCHIVE` (the type of the throttled sources) and `time.Now()` passed in. -/
def NewSourcesService (all : List DataSource) (ARCHIVE : Str) (now : Int) : SourcesService :=
  { base := NewBaseAmassService "Sources Service".toList now,
    directs := all.filter (fun src => src.SourceType ≠ ARCHIVE),
    throttles := all.filter (fun src => src.SourceType = ARCHIVE),
    throttleQueue := [],
    filter := NewStringFilter,
    outfilter := NewStringFilter,
    log := [] }

namespace SourcesService

/-- Appends one effect to the log. -/
def emit (ss : SourcesService) (e : Effect) : SourcesService :=
  { ss with log := ss.log ++ [e] }

/-- Method `queryOneSource`: the requests pushed on `ss.responses`, one per returned name. -/
def queryOneSource (source : DataSource) (domain sub : Str) : List AmassRequest :=
  (source.Query domain sub).map fun name =>
    { Name := name, Domain := domain, Records := [], Tag := source.SourceType,
      Source := source.Name }

/-- Method `throttleAdd`: appends an entry to the throttle queue. -/
def throttleAdd (ss : SourcesService) (source : DataSource) (domain sub : Str) :
    SourcesService :=
  { ss with throttleQueue := ss.throttleQueue ++ [{ Source := source, Domain := domain, Sub := sub }] }

/-- Method `throttleNext`: removes and returns the head of the throttle queue, `none`
(Go `nil`) when it is empty. -/
def throttleNext (ss : SourcesService) : SourcesService × Option entry :=
  match ss.throttleQueue with
  | [] => (ss, none)
  | [e] => ({ ss with throttleQueue := [] }, some e)
  | e :: rest => ({ ss with throttleQueue := rest }, some e)

/-- Method `handleRequest`, with `time.Now()` passed as `now`: the service afterwards and the
queries `go ss.queryOneSource(source, req.Domain, req.Name)` that were spawned, in
order. -/
def handleRequest (cfg : AmassConfig) (now : Int) (ss : SourcesService) (req : AmassRequest) :
    SourcesService × List (DataSource × Str × Str) :=
  let d := ss.filter.Duplicate req.Name
  let ss1 := { ss with filter := d.1 }
  if d.2 || !cfg.IsDomainInScope req.Name then (ss1, [])
  else
    let subsrch : Bool := decide (req.Name ≠ req.Domain)
    let r := ss1.directs.foldl
      (fun (acc : SourcesService × List (DataSource × Str × Str)) source =>
        if subsrch && !source.Subdomains then acc
        else ({ acc.1 with base := acc.1.base.SetActive now },
              acc.2 ++ [(source, req.Domain, req.Name)]))
      (ss1, [])
    if req.Records.length = 0 then r
    else
      (r.1.throttles.foldl
        (fun st source =>
          if subsrch && !source.Subdomains then st
          else st.throttleAdd source req.Domain req.Name)
        r.1, r.2)

/-- Method `handleOutput`: the service afterwards and, unless the result was dropped as a
duplicate, the cleaned request that was published as `NEWNAME` and re-fed. -/
def handleOutput (ss : SourcesService) (req : AmassRequest) :
    SourcesService × Option AmassRequest :=
  let req1 := { req with Name := cleanName req.Name }
  let d := ss.outfilter.Duplicate (req1.Name ++ req1.Source)
  let ss1 := { ss with outfilter := d.1 }
  if d.2 then (ss1, none)
  else
    (((ss1.emit Effect.maxFlowAcquire).emit (Effect.publishNewName req1)).emit
      (Effect.sendRequest req1), some req1)

end SourcesService

/-! ## The passive pipeline of the two services -/

/-- Method `queryAllSources`: marks the service active and sends one request per root domain,
with name and domain both the root domain. -/
def SourcesService.queryAllSources (cfg : AmassConfig) (now : Int) (ss : SourcesService) :
    SourcesService × List AmassRequest :=
  ({ ss with base := ss.base.SetActive now },
    cfg.Domains.map fun domain =>
      { Name := domain, Domain := domain, Records := [], Tag := [], Source := [] })

/-- The two services together with the inbound queue of the sources service. -/
structure Pipeline where
  src : SourcesService
  sub : SubdomainService
  queue : List AmassRequest

namespace Pipeline

/-- The pipeline when both services have been built and `queryAllSources` has run. -/
def start (cfg : AmassConfig) (all : List DataSource) (ARCHIVE : Str) (now : Int) : Pipeline :=
  { src := ((NewSourcesService all ARCHIVE now).queryAllSources cfg now).1,
    sub := NewSubdomainService now,
    queue := ((NewSourcesService all ARCHIVE now).queryAllSources cfg now).2 }

/-- One response of a source is handled by `handleOutput`; unless it is dropped, the
`NEWNAME` publication reaches `performRequest` of the subdomain service (subscribed in
`OnStart`) and `SendRequest` puts the request on the queue of the sources service. -/
def deliver (cfg : AmassConfig) (ral : Str → Str) (now : Int) (p : Pipeline)
    (resp : AmassRequest) : Pipeline :=
  match p.src.handleOutput resp with
  | (src1, none) => { p with src := src1 }
  | (src1, some r) =>
    { src := src1,
      sub := p.sub.performRequest cfg ral now now (some r),
      queue := p.queue ++ [r] }

/-- One request is taken from the queue of the sources service and handled by
`handleRequest`; the spawned queries of the direct sources run and their responses
are delivered in order.  (Entries for throttled sources stay in the throttle queue.) -/
def step (cfg : AmassConfig) (ral : Str → Str) (now : Int) (p : Pipeline) : Pipeline :=
  match p.queue with
  | [] => p
  | req :: rest =>
    let h := p.src.handleRequest cfg now req
    let resps := h.2.flatMap fun q => SourcesService.queryOneSource q.1 q.2.1 q.2.2
    resps.foldl (deliver cfg ral now) { src := h.1, sub := p.sub, queue := rest }

/-- A number of steps of the pipeline, taken one after the other. -/
def run (cfg : AmassConfig) (ral : Str → Str) (now : Int) : Nat → Pipeline → Pipeline
  | 0, p => p
  | n + 1, p => run cfg ral now n (p.step cfg ral now)

end Pipeline

/-- A data source that answers every query with the same names. -/
def stubSource (name type : Str) (subdomains : Bool) (names : List Str) : DataSource :=
  { Name := name, SourceType := type, Subdomains := subdomains, Query := fun _ _ => names }

/-- The root domain `test.com`. -/
def testDomain : Str := "test.com".toList

/-- The name `www.test.com`. -/
def wwwName : Str := "www.test.com".toList

/-- A passive-mode configuration with the single root domain `test.com` and the given
scope predicate. -/
def testConfig (scope : Str → Bool) : AmassConfig :=
  { Passive := true, IsDomainInScope := scope, Domains := [testDomain],
    CNAMENode := fun _ => false }

/-- The stored counters agree with a history of calls: a subdomain never asked for has
no entry, and the others hold the number of calls made for them. -/
def CountersMatch (ss : SubdomainService) (hist : List Str) : Prop :=
  ∀ s, ss.subdomains s = if hist.count s = 0 then none else some (hist.count s : Int)

/-! ## The throttle queue and the throttle loop of srcsrv.go -/

/-- The two operations on the throttle queue. -/
inductive QueueCall where
  /-- a call `ss.throttleAdd(source, domain, sub)` -/
  | add (source : DataSource) (domain sub : Str)
  /-- a call `ss.throttleNext()` -/
  | next

/-- A sequence of `throttleAdd` and `throttleNext` calls, made one after the other:
the service afterwards and what the `throttleNext` calls returned, in order. -/
def runQueueCalls (ss : SourcesService) : List QueueCall → SourcesService × List (Option entry)
  | [] => (ss, [])
  | QueueCall.add source domain sub :: cs => runQueueCalls (ss.throttleAdd source domain sub) cs
  | QueueCall.next :: cs =>
    let n := ss.throttleNext
    let r := runQueueCalls n.1 cs
    (r.1, n.2 :: r.2)

/-- The entries that the `throttleAdd` calls of a sequence add, in order. -/
def addedEntries : List QueueCall → List entry
  | [] => []
  | QueueCall.add source domain sub :: cs =>
    { Source := source, Domain := domain, Sub := sub } :: addedEntries cs
  | QueueCall.next :: cs => addedEntries cs

/-- Modelled from the spec: `utils.Semaphore`, the counting semaphore of the throttle
loop ("a fixed number of concurrency slots (counting semaphore, capacity 20)"); the
type and its methods are not among the sources.  `held` is the number of slots
acquired and not yet released. -/
structure Semaphore where
  capacity : Nat
  held : Nat
deriving DecidableEq, Repr

/-- Modelled from the spec: `utils.NewSemaphore`, a semaphore with every slot free. -/
def NewSemaphore (n : Nat) : Semaphore := { capacity := n, held := 0 }

/-- Modelled from the spec: `Semaphore.TryAcquire` takes the slots and reports `true`
when that many are free, and otherwise takes none and reports `false`. -/
def Semaphore.TryAcquire (s : Semaphore) (n : Nat) : Semaphore × Bool :=
  if s.held + n ≤ s.capacity then ({ s with held := s.held + n }, true) else (s, false)

/-- Modelled from the spec: `Semaphore.Release` gives slots back. -/
def Semaphore.Release (s : Semaphore) (n : Nat) : Semaphore := { s with held := s.held - n }

/-- What can happen while `processThrottleQueue` runs: the cases of its `select` that do
not end the loop, the completion of a spawned query, and a `throttleAdd` made by
`handleRequest`. -/
inductive ThrottleEvent where
  /-- the ticker fired (`<-t.C`) -/
  | tick
  /-- a message was received from `done` -/
  | recvDone
  /-- a message was received from the pause channel -/
  | pause
  /-- a message was received from the resume channel -/
  | resume
  /-- the spawned query at this position among the running ones returned and its
  goroutine sent on `done` -/
  | finish (i : Nat)
  /-- a call `ss.throttleAdd(source, domain, sub)` from `handleRequest` -/
  | add (source : DataSource) (domain sub : Str)

/-- The state of `processThrottleQueue`: the service (for its throttle queue), the
semaphore `max`, the number of messages buffered in the channel `done`, the spawned
queries that have not sent on `done` yet, the requests pushed on `ss.responses`, and
whether the ticker runs. -/
structure ThrottleState where
  ss : SourcesService
  max : Semaphore
  done : Nat
  running : List entry
  responses : List AmassRequest
  ticking : Bool

/-- The state when `processThrottleQueue` enters its loop: `max` is
`utils.NewSemaphore(20)`, `done` is empty, the ticker runs. -/
def ThrottleState.init (ss : SourcesService) : ThrottleState :=
  { ss := ss, max := NewSemaphore 20, done := 0, running := [], responses := [],
    ticking := true }

/-- One event of `processThrottleQueue`.  A receive from an empty `done`, a completion
at a position where no query runs, and a send on a full `done` (capacity 20) cannot
take place and leave the state as it is. -/
def processThrottleQueueStep (st : ThrottleState) : ThrottleEvent → ThrottleState
  | ThrottleEvent.tick =>
    let a := st.max.TryAcquire 1
    if !a.2 then st
    else
      let n := st.ss.throttleNext
      match n.2 with
      | some th => { st with ss := n.1, max := a.1, running := st.running ++ [th] }
      | none => { st with ss := n.1, max := a.1.Release 1 }
  | ThrottleEvent.recvDone =>
    if st.done = 0 then st
    else { st with done := st.done - 1, max := st.max.Release 1 }
  | ThrottleEvent.pause => { st with ticking := false }
  | ThrottleEvent.resume => { st with ticking := true }
  | ThrottleEvent.finish i =>
    match st.running.get? i with
    | none => st
    | some th =>
      if st.done < 20 then
        { st with
          running := st.running.eraseIdx i,
          responses := st.responses
            ++ SourcesService.queryOneSource th.Source th.Domain th.Sub,
          done := st.done + 1 }
      else st
  | ThrottleEvent.add source domain sub =>
    { st with ss := st.ss.throttleAdd source domain sub }

/-- The loop of `processThrottleQueue` over a sequence of events. -/
def processThrottleQueue (ss : SourcesService) (evs : List ThrottleEvent) : ThrottleState :=
  evs.foldl processThrottleQueueStep (ThrottleState.init ss)

/-- The service after `handleOutput` has handled the results one after the other, and
what each call returned. -/
def handleOutputs (ss : SourcesService) :
    List AmassRequest → SourcesService × List (Option AmassRequest)
  | [] => (ss, [])
  | r :: rs =>
    let h := ss.handleOutput r
    let t := handleOutputs h.1 rs
    (t.1, h.2 :: t.2)

/-! ## The event bus and the start and stop hooks of the two services -/

/-- The topics of the event bus (the constants of package `core`). -/
inductive Topic where
  | CHECKED
  | NEWNAME
  | RESOLVED
  | DNSQUERY
  | NEWSUB
  | RELEASEREQ
  | OUTPUT
deriving DecidableEq, Repr

/-- The methods that the two services subscribe as handlers. -/
inductive Handler where
  /-- the method value `ss.SendRequest` of the subdomain service -/
  | subdomainSendRequest
  /-- the method value `ss.performCheck` of the subdomain service -/
  | subdomainPerformCheck
  /-- the method value `ss.sendRelease` of the subdomain service -/
  | subdomainSendRelease
  /-- the method value `ss.SendRequest` of the sources service -/
  | sourcesSendRequest
deriving DecidableEq, Repr

/-- The goroutines that the start hooks spawn. -/
inductive Goroutine where
  | subdomainProcessRequests
  | subdomainProcessReleases
  | sourcesProcessRequests
  | sourcesProcessOutput
  | sourcesProcessThrottleQueue
  | sourcesQueryAllSources
deriving DecidableEq, Repr

/-- The event bus as the registry of its subscriptions, in subscription order. -/
abbrev Bus := List (Topic × Handler)

/-- Bus method `SubscribeAsync(topic, fn, false)`: adds the handler to the topic. -/
def Bus.SubscribeAsync (bus : Bus) (topic : Topic) (fn : Handler) : Bus :=
  bus ++ [(topic, fn)]

/-- Bus method `Unsubscribe(topic, handler)`: removes the first subscription of the
handler to the topic, if there is one. -/
def Bus.Unsubscribe (bus : Bus) (topic : Topic) (handler : Handler) : Bus :=
  bus.erase (topic, handler)

/-- Whether a handler belongs to the subdomain service. -/
def Handler.ofSubdomainService : Handler → Bool
  | Handler.subdomainSendRequest => true
  | Handler.subdomainPerformCheck => true
  | Handler.subdomainSendRelease => true
  | Handler.sourcesSendRequest => false

/-- Hook `SubdomainService.OnStart`: the bus afterwards, the goroutines spawned, and the
returned error (`nil`). -/
def SubdomainService.OnStart (bus : Bus) : Bus × List Goroutine × Option Str :=
  let bus1 := bus.SubscribeAsync Topic.NEWNAME Handler.subdomainSendRequest
  let bus2 := bus1.SubscribeAsync Topic.RESOLVED Handler.subdomainPerformCheck
  let bus3 := bus2.SubscribeAsync Topic.RELEASEREQ Handler.subdomainSendRelease
  (bus3, [Goroutine.subdomainProcessRequests, Goroutine.subdomainProcessReleases], none)

/-- Hook `SubdomainService.OnStop`: the bus afterwards and the returned error (`nil`). -/
def SubdomainService.OnStop (bus : Bus) : Bus × Option Str :=
  let bus1 := bus.Unsubscribe Topic.NEWNAME Handler.subdomainSendRequest
  let bus2 := bus1.Unsubscribe Topic.CHECKED Handler.subdomainPerformCheck
  let bus3 := bus2.Unsubscribe Topic.RELEASEREQ Handler.subdomainSendRelease
  (bus3, none)

/-- Hook `SourcesService.OnStart`: the bus afterwards, the goroutines spawned, and the
returned error (`nil`). -/
def SourcesService.OnStart (bus : Bus) : Bus × List Goroutine × Option Str :=
  (bus.SubscribeAsync Topic.CHECKED Handler.sourcesSendRequest,
    [Goroutine.sourcesProcessRequests, Goroutine.sourcesProcessOutput,
      Goroutine.sourcesProcessThrottleQueue, Goroutine.sourcesQueryAllSources], none)

/-- Hook `SourcesService.OnStop`: the bus afterwards and the returned error (`nil`). -/
def SourcesService.OnStop (bus : Bus) : Bus × Option Str :=
  (bus.Unsubscribe Topic.CHECKED Handler.sourcesSendRequest, none)

/-- Hooks that report, as the error of `OnStart`, whether the `started` flag was set
when `OnStart` ran. -/
def probeHooks : Hooks :=
  { onStart := fun bas =>
      if bas.started then some "started flag is set".toList
      else some "started flag is not set".toList,
    onPause := fun _ => none, onResume := fun _ => none, onStop := fun _ => none }

/-- The slots held are those of the queries that run and of the completions not yet
received, and there are at most 20 of them. -/
def SlotsAccounted (st : ThrottleState) : Prop :=
  st.max.capacity = 20 ∧ st.running.length + st.done = st.max.held ∧ st.max.held ≤ 20

/-! ## Concrete inputs used in the examples -/

/-- A passive-mode configuration with root domain `example.com` in which every name is
in scope and no name is a CNAME alias. -/
def exampleConfig : AmassConfig :=
  { Passive := true, IsDomainInScope := fun _ => true, Domains := ["example.com".toList],
    CNAMENode := fun _ => false }

/-- A resolved request for `name` under the root domain `domain`. -/
def exampleRequest (name domain : String) : AmassRequest :=
  { Name := name.toList, Domain := domain.toList, Records := ["93.184.216.34".toList],
    Tag := "dns".toList, Source := "Forward DNS".toList }

/-- A sources service with 50 entries in its throttle queue, all for the stub archive
source `Wayback` and the name `www.test.com`. -/
def fiftyQueued : SourcesService :=
  { NewSourcesService [] "archive".toList 0 with
    throttleQueue := List.replicate 50
      { Source := stubSource "Wayback".toList "archive".toList true [wwwName],
        Domain := testDomain, Sub := wwwName } }

/-- A data source named `mirror` that returns the name `www.test.co`. -/
def mirrorSource : DataSource :=
  stubSource "mirror".toList "scrape".toList true ["www.test.co".toList]

/-- A data source named `irror` that returns the name `www.test.com`. -/
def irrorSource : DataSource :=
  stubSource "irror".toList "scrape".toList true ["www.test.com".toList]

/-- A result with the given name of the source with the given name, as `queryOneSource`
builds it for the root domain `test.com`. -/
def resultOf (source name : String) : AmassRequest :=
  { Name := name.toList, Domain := testDomain, Records := [],
    Tag := "scrape".toList, Source := source.toList }

/-! ## Theorems: service lifecycle -/

theorem runCalls_append (h : Hooks) (xs ys : List Call) (bas : BaseAmassService) :
    runCalls h bas (xs ++ ys) = runCalls h (runCalls h bas xs) ys := by
  induction xs generalizing bas with
  | nil => rfl
  | cons c cs ih => simp [runCalls, ih]

theorem quitCloses_emit (bas : BaseAmassService) (e : LifeEvent) :
    (bas.emit e).quitCloses = bas.quitCloses + (if e = LifeEvent.closeQuit then 1 else 0) := by
  unfold BaseAmassService.quitCloses BaseAmassService.emit
  by_cases he : e = LifeEvent.closeQuit
  · subst he; simp
  · simp [he, List.count_cons, List.count_append]

theorem emit_stopped (bas : BaseAmassService) (e : LifeEvent) :
    (bas.emit e).stopped = bas.stopped := rfl

theorem emit_started (bas : BaseAmassService) (e : LifeEvent) :
    (bas.emit e).started = bas.started := rfl

/-- A stopped service rejects `Start` and `Stop` and is left as it was. -/
theorem stopped_rejects (h : Hooks) (bas : BaseAmassService) (hs : bas.stopped = true)
    (c : Call) (hc : c = Call.start ∨ c = Call.stop) :
    (doCall h bas c).1 = bas ∧ ∃ msg, (doCall h bas c).2 = some (Err.usage msg) := by
  rcases hc with rfl | rfl
  · by_cases hst : bas.started = true
    · simp [doCall, BaseAmassService.Start, BaseAmassService.isStarted, hst]
    · simp [doCall, BaseAmassService.Start, BaseAmassService.isStarted,
        BaseAmassService.isStopped, hst, hs]
  · simp [doCall, BaseAmassService.Stop, BaseAmassService.isStopped, hs]

/-- One call keeps the link between the `stopped` flag and the number of closes of the
quit channel. -/
theorem doCall_inv (h : Hooks) (bas : BaseAmassService) (c : Call)
    (hinv : bas.quitCloses = if bas.stopped then 1 else 0) :
    (doCall h bas c).1.quitCloses = (if (doCall h bas c).1.stopped then 1 else 0) ∧
    ((doCall h bas c).1.stopped = (bas.stopped || decide (c = Call.stop))) := by
  cases c with
  | start =>
    by_cases h1 : bas.started = true
    · simp [doCall, BaseAmassService.Start, BaseAmassService.isStarted, h1, hinv]
    · by_cases h2 : bas.stopped = true
      · simp [doCall, BaseAmassService.Start, BaseAmassService.isStarted,
          BaseAmassService.isStopped, h1, h2, hinv]
      · simp only [Bool.not_eq_true] at h1 h2
        simp [doCall, BaseAmassService.Start, BaseAmassService.isStarted,
          BaseAmassService.isStopped, h1, h2, quitCloses_emit, emit_stopped]
        simpa [BaseAmassService.quitCloses, h2] using hinv
  | pause =>
    simp [doCall, BaseAmassService.Pause, quitCloses_emit, emit_stopped]
    exact hinv
  | resume =>
    simp [doCall, BaseAmassService.Resume, quitCloses_emit, emit_stopped]
    exact hinv
  | stop =>
    by_cases h2 : bas.stopped = true
    · simp [doCall, BaseAmassService.Stop, BaseAmassService.isStopped, h2, hinv]
    · simp only [Bool.not_eq_true] at h2
      simp [doCall, BaseAmassService.Stop, BaseAmassService.isStopped, h2, quitCloses_emit,
        BaseAmassService.Resume, emit_stopped]
      simpa [BaseAmassService.quitCloses, BaseAmassService.emit, h2] using hinv

/-- After any sequence of calls on a service whose quit channel is closed exactly when
it is stopped, the same holds, and the service is stopped exactly when it was stopped
before or the sequence has a `Stop`. -/
theorem runCalls_inv (h : Hooks) (cs : List Call) (bas : BaseAmassService)
    (hinv : bas.quitCloses = if bas.stopped then 1 else 0) :
    (runCalls h bas cs).quitCloses = (if (runCalls h bas cs).stopped then 1 else 0) ∧
    ((runCalls h bas cs).stopped = (bas.stopped || decide (Call.stop ∈ cs))) := by
  induction cs generalizing bas with
  | nil => simpa [runCalls] using hinv
  | cons c cs ih =>
    obtain ⟨h1, h2⟩ := doCall_inv h bas c hinv
    obtain ⟨h3, h4⟩ := ih (doCall h bas c).1 h1
    refine ⟨by simpa [runCalls] using h3, ?_⟩
    simp only [runCalls, h4, h2]
    by_cases hc : c = Call.stop
    · simp [hc]
    · have : ¬ Call.stop = c := fun h' => hc h'.symm
      simp [hc, this]

/-- C1: `BaseAmassService.Start` returns a usage error exactly when the service has
already been started or already been stopped, and then `OnStart` is not called (the
log is unchanged) and the `started` and `stopped` flags are unchanged. -/
theorem C1_start_usage_error (h : Hooks) (bas : BaseAmassService) :
    ((∃ msg, (bas.Start h).2 = some (Err.usage msg)) ↔
        (bas.started = true ∨ bas.stopped = true)) ∧
    ((∃ msg, (bas.Start h).2 = some (Err.usage msg)) →
        (bas.Start h).1.log = bas.log ∧
        (∀ b, (bas.Start h).1.log.count (LifeEvent.hookOnStart b)
                = bas.log.count (LifeEvent.hookOnStart b)) ∧
        (bas.Start h).1.started = bas.started ∧
        (bas.Start h).1.stopped = bas.stopped) := by
  by_cases h1 : bas.started = true
  · simp [BaseAmassService.Start, BaseAmassService.isStarted, h1]
  · by_cases h2 : bas.stopped = true
    · simp [BaseAmassService.Start, BaseAmassService.isStarted,
        BaseAmassService.isStopped, h1, h2]
    · have hno : ¬ ∃ msg, (bas.Start h).2 = some (Err.usage msg) := by
        rintro ⟨msg, hm⟩
        simp only [Bool.not_eq_true] at h1 h2
        simp [BaseAmassService.Start, BaseAmassService.isStarted,
          BaseAmassService.isStopped, h1, h2] at hm
      exact ⟨⟨fun hx => absurd hx hno, fun hx => by rcases hx with hx | hx <;> contradiction⟩,
        fun hx => absurd hx hno⟩

/-- C2: on a newly built service and for every sequence of `Start`, `Pause`, `Resume`
and `Stop` calls, the quit channel is closed once if the sequence has a `Stop` and not
at all otherwise; the close is done by the first `Stop` (no close before it, one right
after it); and every `Stop` or `Start` made after the first `Stop` returns a usage
error and leaves the service, its flags and its closed quit channel as they were. -/
theorem C2_stopped_terminal (h : Hooks) (name : Str) (now : Int) (cs : List Call) :
    (runCalls h (NewBaseAmassService name now) cs).quitCloses
        = (if Call.stop ∈ cs then 1 else 0) ∧
    (∀ pre post, cs = pre ++ Call.stop :: post → Call.stop ∉ pre →
        (runCalls h (NewBaseAmassService name now) pre).quitCloses = 0 ∧
        (runCalls h (NewBaseAmassService name now) (pre ++ [Call.stop])).quitCloses = 1 ∧
        (doCall h (runCalls h (NewBaseAmassService name now) pre) Call.stop).1.log.getLast?
          = some LifeEvent.closeQuit) ∧
    (∀ pre c post, cs = pre ++ c :: post → Call.stop ∈ pre →
        (c = Call.start ∨ c = Call.stop) →
        (∃ msg, (doCall h (runCalls h (NewBaseAmassService name now) pre) c).2
                  = some (Err.usage msg)) ∧
        (doCall h (runCalls h (NewBaseAmassService name now) pre) c).1
          = runCalls h (NewBaseAmassService name now) pre ∧
        (doCall h (runCalls h (NewBaseAmassService name now) pre) c).1.quitCloses = 1 ∧
        (doCall h (runCalls h (NewBaseAmassService name now) pre) c).1.stopped = true) := by
  have h0 : (NewBaseAmassService name now).quitCloses
      = if (NewBaseAmassService name now).stopped then 1 else 0 := by
    simp [NewBaseAmassService, BaseAmassService.quitCloses]
  have key : ∀ xs : List Call,
      (runCalls h (NewBaseAmassService name now) xs).quitCloses
          = (if Call.stop ∈ xs then 1 else 0) ∧
      (runCalls h (NewBaseAmassService name now) xs).stopped = decide (Call.stop ∈ xs) := by
    intro xs
    obtain ⟨h1, h2⟩ := runCalls_inv h xs _ h0
    have h3 : (runCalls h (NewBaseAmassService name now) xs).stopped
        = decide (Call.stop ∈ xs) := by
      simpa [NewBaseAmassService] using h2
    refine ⟨?_, h3⟩
    rw [h1, h3]; by_cases hm : Call.stop ∈ xs <;> simp [hm]
  refine ⟨(key cs).1, ?_, ?_⟩
  · intro pre post _ hpre
    refine ⟨by simpa [hpre] using (key pre).1, by simpa using (key (pre ++ [Call.stop])).1, ?_⟩
    have hs : (runCalls h (NewBaseAmassService name now) pre).stopped = false := by
      simpa [hpre] using (key pre).2
    simp [doCall, BaseAmassService.Stop, BaseAmassService.isStopped, hs,
      BaseAmassService.emit]
  · intro pre c post _ hpre hc
    have hs : (runCalls h (NewBaseAmassService name now) pre).stopped = true := by
      simpa [hpre] using (key pre).2
    obtain ⟨e1, e2⟩ := stopped_rejects h _ hs c hc
    refine ⟨e2, e1, ?_, ?_⟩
    · rw [e1]; simpa [hpre] using (key pre).1
    · rw [e1]; exact hs

theorem timeSub_gt_iff (t u : Int) : timeSub t u > 10 * second ↔ t - u > 10 * second := by
  unfold timeSub maxDuration minDuration second
  split_ifs <;> constructor <;> intro _ <;> omega

theorem markAll_active (bas : BaseAmassService) (ts : List Int) :
    (markAll bas ts).active = ts.getLast?.getD bas.active := by
  induction ts generalizing bas with
  | nil => rfl
  | cons t ts ih =>
    rw [markAll, ih]
    cases ts with
    | nil => rfl
    | cons u us =>
      rw [List.getLast?_cons_cons]
      cases hl : (u :: us).getLast? with
      | none => simp [List.getLast?_eq_none_iff] at hl
      | some v => rfl

/-- C3: with the clock an explicit input, for a service built at instant `t0` and
marked active at the instants `ts` (in call order), `IsActive` at `now` is true exactly
when `now` minus the last mark (or `t0` when there was none) is at most 10 seconds; so
it is true at the instant of a `SetActive` call and false at every instant more than 10
seconds after the last mark. -/
theorem C3_isActive_window (name : Str) (t0 : Int) (ts : List Int) (now : Int) :
    (((markAll (NewBaseAmassService name t0) ts).IsActive now = true) ↔
        now - ts.getLast?.getD t0 ≤ 10 * second) ∧
    (((markAll (NewBaseAmassService name t0) ts).SetActive now).IsActive now = true) ∧
    (now - ts.getLast?.getD t0 > 10 * second →
        (markAll (NewBaseAmassService name t0) ts).IsActive now = false) := by
  have ha := markAll_active (NewBaseAmassService name t0) ts
  have hb : (NewBaseAmassService name t0).active = t0 := rfl
  rw [hb] at ha
  refine ⟨?_, ?_, ?_⟩
  · unfold BaseAmassService.IsActive
    rw [ha]
    have := timeSub_gt_iff now (ts.getLast?.getD t0)
    split_ifs with hc
    · simp; omega
    · simp; omega
  · unfold BaseAmassService.IsActive BaseAmassService.SetActive
    have := timeSub_gt_iff now now
    simp only
    split_ifs with hc
    · have := this.mp hc
      simp [second] at this
    · rfl
  · intro hgt
    unfold BaseAmassService.IsActive
    rw [ha]
    have := (timeSub_gt_iff now (ts.getLast?.getD t0)).mpr hgt
    simp [this]

/-! ## Theorems: name clean-up of `handleOutput` -/

/-- What remains after the strip begins with none of the codes. -/
theorem drop_codeRun_no_code : ∀ (s code : Str), code ∈ artifactCodes →
    ¬ code <+: s.drop (codeRun s)
  | [], code, hc => by
    simp only [codeRun, List.drop_nil, List.prefix_nil]
    rintro rfl
    simp [artifactCodes] at hc
  | [a], code, hc => by
    simp only [codeRun, List.drop_zero]
    intro hp
    have := hp.length_le
    simp [artifactCodes] at hc
    rcases hc with rfl | rfl | rfl | rfl | rfl <;> simp at this
  | a :: b :: r, code, hc => by
    unfold codeRun
    split_ifs with h
    · have ih := drop_codeRun_no_code r code hc
      have e : (a :: b :: r).drop (2 + codeRun r) = r.drop (codeRun r) := by
        rw [Nat.add_comm]; rfl
      rw [e]; exact ih
    · intro hp
      apply h
      simp only [List.drop_zero] at hp
      simp [artifactCodes] at hc
      rcases hc with rfl | rfl | rfl | rfl | rfl <;>
        (simp only [List.cons_prefix_cons] at hp
         obtain ⟨rfl, rfl, _⟩ := hp
         simp [artifactCodes])

theorem stripName_eq (s : Str) : stripName s = s.drop (codeRun s) := by
  unfold stripName FindStringIndex
  split_ifs with h <;> simp [h]

/-- Lower-casing reaches the letters outside ASCII, as `strings.ToLower` does. -/
theorem ToLower_beyond_ascii :
    ToLower "ÉCOLE.example.com".toList = "école.example.com".toList ∧
    cleanName "ÉCOLE.example.com".toList = "école.example.com".toList := by
  decide

/-- C4: the clean-up of `handleOutput` does not always reach the normal form of the
claim.  `40sub.example.com` is cleaned to `sub.example.com`, as the claim says; but
`..sub.example.com` is cleaned to `.sub.example.com`, which begins with a dot (one dot
is removed, not the dots); `.40sub.example.com` is cleaned to `40sub.example.com` and
`2Fsub.example.com` to `2fsub.example.com`, which begin with the codes `40` and `2f`
(the strip runs once, before the lower-casing and the removal of the dot); and cleaning
these results again changes them, so the clean-up did not finish its work. -/
theorem C4_cleanName_misses_normal_form :
    cleanName "40sub.example.com".toList = "sub.example.com".toList ∧
    (cleanName "..sub.example.com".toList = ".sub.example.com".toList ∧
      (cleanName "..sub.example.com".toList).head? = some '.') ∧
    (cleanName ".40sub.example.com".toList = "40sub.example.com".toList ∧
      ['4', '0'] ∈ artifactCodes ∧ ['4', '0'] <+: cleanName ".40sub.example.com".toList) ∧
    (cleanName "2Fsub.example.com".toList = "2fsub.example.com".toList ∧
      ['2', 'f'] ∈ artifactCodes ∧ ['2', 'f'] <+: cleanName "2Fsub.example.com".toList) ∧
    (cleanName (cleanName "..sub.example.com".toList) = "sub.example.com".toList ∧
      cleanName (cleanName ".40sub.example.com".toList) = "sub.example.com".toList ∧
      cleanName (cleanName "2Fsub.example.com".toList) = "sub.example.com".toList) := by
  decide

/-! ## Theorems: labels of a name -/

theorem Split_ne_nil : ∀ (s : Str) (sep : Char), Split s sep ≠ []
  | [], _ => by simp [Split]
  | c :: cs, sep => by
    unfold Split
    split_ifs
    · simp
    · cases Split cs sep <;> simp

/-- Joining the labels of a string gives the string back. -/
theorem Join_Split : ∀ (s : Str) (sep : Char), Join (Split s sep) sep = s
  | [], _ => by simp [Split, Join]
  | c :: cs, sep => by
    have ih := Join_Split cs sep
    have hne := Split_ne_nil cs sep
    unfold Split
    split_ifs with h
    · subst h
      cases hs : Split cs c with
      | nil => exact absurd hs hne
      | cons l ls => rw [hs] at ih; simp [Join, ih]
    · cases hs : Split cs sep with
      | nil => exact absurd hs hne
      | cons l ls =>
        rw [hs] at ih
        cases ls with
        | nil => simp only [Join] at ih ⊢; rw [ih]
        | cons l2 ls2 => simp only [Join, List.cons_append] at ih ⊢; rw [ih]

/-- No label contains the separator. -/
theorem Split_no_sep : ∀ (s : Str) (sep : Char), ∀ l ∈ Split s sep, sep ∉ l
  | [], _ => by simp [Split]
  | c :: cs, sep => by
    have ih := Split_no_sep cs sep
    unfold Split
    split_ifs with h
    · intro l hl
      rcases List.mem_cons.mp hl with rfl | hl
      · simp
      · exact ih l hl
    · cases hs : Split cs sep with
      | nil => intro l hl; simp at hl; subst hl; simp; exact fun h' => h h'.symm
      | cons l0 ls =>
        rw [hs] at ih
        intro l hl
        rcases List.mem_cons.mp hl with rfl | hl
        · have := ih l0 (List.mem_cons_self _ _)
          simp only [List.mem_cons, not_or]
          exact ⟨fun h' => h h'.symm, this⟩
        · exact ih l (List.mem_cons_of_mem _ hl)

/-- Splitting a label followed by the separator and a rest. -/
theorem Split_append_sep : ∀ (l rest : Str) (sep : Char), sep ∉ l →
    Split (l ++ sep :: rest) sep = l :: Split rest sep
  | [], rest, sep, _ => by simp [Split]
  | c :: cs, rest, sep, h => by
    have hc : c ≠ sep := fun h' => h (by simp [h'])
    have hcs : sep ∉ cs := fun h' => h (List.mem_cons_of_mem _ h')
    have ih := Split_append_sep cs rest sep hcs
    simp only [List.cons_append]
    rw [Split, if_neg hc, ih]

/-- Splitting a string without separator gives the string as its only label. -/
theorem Split_single : ∀ (l : Str) (sep : Char), sep ∉ l → Split l sep = [l]
  | [], _, _ => by simp [Split]
  | c :: cs, sep, h => by
    have hc : c ≠ sep := fun h' => h (by simp [h'])
    have hcs : sep ∉ cs := fun h' => h (List.mem_cons_of_mem _ h')
    rw [Split, if_neg hc, Split_single cs sep hcs]

/-- Splitting the join of labels without separator gives the labels back. -/
theorem Split_Join : ∀ (ls : List Str) (sep : Char), ls ≠ [] → (∀ l ∈ ls, sep ∉ l) →
    Split (Join ls sep) sep = ls
  | [], _, h, _ => absurd rfl h
  | [l], sep, _, h => by simp [Join, Split_single l sep (h l (by simp))]
  | l :: l2 :: ls, sep, _, h => by
    have ih := Split_Join (l2 :: ls) sep (by simp)
      (fun x hx => h x (List.mem_cons_of_mem _ hx))
    simp only [Join]
    rw [Split_append_sep l _ sep (h l (by simp)), ih]

/-- The join of all labels but the first is the string without its first label and the
separator after it. -/
theorem Join_tail (s : Str) (sep : Char) (h : 2 ≤ (Split s sep).length) :
    Join ((Split s sep).drop 1) sep = s.drop (((Split s sep).headD []).length + 1) := by
  have hj := Join_Split s sep
  rcases hs : Split s sep with _ | ⟨l, _ | ⟨l2, ls⟩⟩
  · simp [hs] at h
  · simp [hs] at h
  · rw [hs] at hj
    simp only [Join] at hj
    simp only [List.drop_succ_cons, List.drop_zero, List.headD_cons]
    conv_rhs => rw [← hj]
    simp

/-! ## Theorems: `checkSubdomain` -/

theorem timesForSubdomain_log (ss : SubdomainService) (sub : Str) :
    (ss.timesForSubdomain sub).1.log = ss.log := rfl

theorem sub_emit_log (ss : SubdomainService) (e : Effect) :
    (ss.emit e).log = ss.log ++ [e] := rfl

/-- What `checkSubdomain` does, case by case: nothing unless the four tests pass, and
then one `NEWSUB` publication. -/
theorem checkSubdomain_log (cfg : AmassConfig) (ss : SubdomainService) (req : AmassRequest) :
    (ss.checkSubdomain cfg req).log =
      if 2 ≤ (Split req.Name '.').length ∧
          (Split req.Domain '.').length < (Split req.Name '.').length ∧
          ((Split req.Name '.').getD 1 [] ≠ "_tcp".toList ∧
            (Split req.Name '.').getD 1 [] ≠ "_udp".toList ∧
            (Split req.Name '.').getD 1 [] ≠ "_tls".toList) ∧
          cfg.CNAMENode (Join ((Split req.Name '.').drop 1) '.') = false
      then ss.log ++ [Effect.publishNewSub
          { Name := Join ((Split req.Name '.').drop 1) '.', Domain := req.Domain,
            Records := [], Tag := req.Tag, Source := req.Source }
          (ss.timesForSubdomain (Join ((Split req.Name '.').drop 1) '.')).2]
      else ss.log := by
  unfold SubdomainService.checkSubdomain
  simp only
  by_cases h1 : (Split req.Name '.').length < 2
  · rw [if_pos h1, if_neg (by omega)]
  · rw [if_neg h1]
    by_cases h2 : (Split req.Name '.').length - 1 < (Split req.Domain '.').length
    · rw [if_pos h2, if_neg (by omega)]
    · rw [if_neg h2]
      by_cases h3 : (Split req.Name '.').getD 1 [] = "_tcp".toList ∨
          (Split req.Name '.').getD 1 [] = "_udp".toList ∨
          (Split req.Name '.').getD 1 [] = "_tls".toList
      · rw [if_pos h3, if_neg]
        rintro ⟨_, _, ⟨a, b, c⟩, _⟩
        rcases h3 with h | h | h
        · exact a h
        · exact b h
        · exact c h
      · rw [if_neg h3]
        simp only [not_or] at h3
        by_cases h4 : cfg.CNAMENode (Join ((Split req.Name '.').drop 1) '.') = true
        · rw [if_pos h4, if_neg]
          rintro ⟨_, _, _, d⟩
          rw [h4] at d
          exact Bool.noConfusion d
        · rw [if_neg h4, if_pos]
          · rfl
          · simp only [Bool.not_eq_true] at h4
            exact ⟨by omega, by omega, h3, h4⟩

/-- C5 (amended): `checkSubdomain` publishes a `NEWSUB` candidate exactly when the name
has at least 2 labels, the name has strictly more labels than the root domain (the
code compares the label count minus one, that of the candidate, with the root domain's),
the second label is none of `_tcp`, `_udp`, `_tls`, and the suffix left by dropping the
first label is not a known CNAME alias target; otherwise it publishes nothing. -/
theorem C5_checkSubdomain_amended (cfg : AmassConfig) (ss : SubdomainService)
    (req : AmassRequest) :
    ((∃ r t, (ss.checkSubdomain cfg req).log = ss.log ++ [Effect.publishNewSub r t]) ↔
      (2 ≤ (Split req.Name '.').length ∧
        (Split req.Domain '.').length < (Split req.Name '.').length ∧
        ((Split req.Name '.').getD 1 [] ≠ "_tcp".toList ∧
          (Split req.Name '.').getD 1 [] ≠ "_udp".toList ∧
          (Split req.Name '.').getD 1 [] ≠ "_tls".toList) ∧
        cfg.CNAMENode (Join ((Split req.Name '.').drop 1) '.') = false)) ∧
    ((¬ ∃ r t, (ss.checkSubdomain cfg req).log = ss.log ++ [Effect.publishNewSub r t]) →
      (ss.checkSubdomain cfg req).log = ss.log) := by
  have h := checkSubdomain_log cfg ss req
  split_ifs at h with hc
  · exact ⟨⟨fun _ => hc, fun _ => ⟨_, _, h⟩⟩, fun hn => absurd ⟨_, _, h⟩ hn⟩
  · refine ⟨⟨?_, fun hx => absurd hx hc⟩, fun _ => h⟩
    rintro ⟨r, t, hrt⟩
    rw [h] at hrt
    simp at hrt

/-- C5 (witness): `a.b.example.com` under `example.com` passes the four tests and one
`NEWSUB` is published. -/
theorem C5_checkSubdomain_amended_witness :
    ∃ r t, ((NewSubdomainService 0).checkSubdomain exampleConfig
        (exampleRequest "a.b.example.com" "example.com")).log
      = (NewSubdomainService 0).log ++ [Effect.publishNewSub r t] :=
  (C5_checkSubdomain_amended exampleConfig (NewSubdomainService 0)
    (exampleRequest "a.b.example.com" "example.com")).1.mpr (by decide)

/-- C5 (counterexample): for the name `example.com` under the root domain `example.com`
the four conditions of the claim hold (2 labels, as many labels as the root domain,
second label `com`, suffix `com` not an alias), yet nothing is published. -/
theorem C5_counterexample :
    (2 ≤ (Split (exampleRequest "example.com" "example.com").Name '.').length ∧
      (Split (exampleRequest "example.com" "example.com").Domain '.').length
        ≤ (Split (exampleRequest "example.com" "example.com").Name '.').length ∧
      ((Split (exampleRequest "example.com" "example.com").Name '.').getD 1 [] ≠ "_tcp".toList ∧
        (Split (exampleRequest "example.com" "example.com").Name '.').getD 1 [] ≠ "_udp".toList ∧
        (Split (exampleRequest "example.com" "example.com").Name '.').getD 1 [] ≠ "_tls".toList) ∧
      exampleConfig.CNAMENode
        (Join ((Split (exampleRequest "example.com" "example.com").Name '.').drop 1) '.') = false) ∧
    ((NewSubdomainService 0).checkSubdomain exampleConfig
        (exampleRequest "example.com" "example.com")).log = [] := by
  decide

/-- C6: when `checkSubdomain` publishes a `NEWSUB` candidate, the candidate's name is
the request name without its first label and the dot after it, its domain, tag and
source are the request's, and it has at least as many labels as the root domain; for
`a.b.example.com` under `example.com` the candidate is `b.example.com`, with 3 labels
against 2. -/
theorem C6_candidate (cfg : AmassConfig) (ss : SubdomainService) (req r : AmassRequest)
    (t : Int) (h : (ss.checkSubdomain cfg req).log = ss.log ++ [Effect.publishNewSub r t]) :
    (r.Name = req.Name.drop (((Split req.Name '.').headD []).length + 1) ∧
      ((Split req.Name '.').headD []) ++ '.' :: r.Name = req.Name ∧
      r.Domain = req.Domain ∧ r.Tag = req.Tag ∧ r.Source = req.Source ∧
      (Split req.Domain '.').length ≤ (Split r.Name '.').length) ∧
    (((NewSubdomainService 0).checkSubdomain exampleConfig
        (exampleRequest "a.b.example.com" "example.com")).log
      = [Effect.publishNewSub
          { Name := "b.example.com".toList, Domain := "example.com".toList, Records := [],
            Tag := "dns".toList, Source := "Forward DNS".toList } 1] ∧
      (Split "b.example.com".toList '.').length = 3 ∧
      (Split "example.com".toList '.').length = 2) := by
  refine ⟨?_, by decide⟩
  have hl := checkSubdomain_log cfg ss req
  rw [h] at hl
  split_ifs at hl with hc
  · obtain ⟨c1, c2, _, _⟩ := hc
    have e := List.append_cancel_left hl
    simp only [List.cons.injEq, Effect.publishNewSub.injEq, and_true] at e
    obtain ⟨e1, _⟩ := e
    subst e1
    have hname := Join_tail req.Name '.' c1
    have hsplit : Split (Join ((Split req.Name '.').drop 1) '.') '.'
        = (Split req.Name '.').drop 1 := by
      apply Split_Join
      · intro hnil
        have := congrArg List.length hnil
        simp at this
        omega
      · intro l hl2
        exact Split_no_sep req.Name '.' l (List.mem_of_mem_drop hl2)
    refine ⟨hname, ?_, rfl, rfl, rfl, ?_⟩
    · have hj := Join_Split req.Name '.'
      rcases hs : Split req.Name '.' with _ | ⟨l, _ | ⟨l2, ls⟩⟩
      · simp [hs] at c1
      · simp [hs] at c1
      · rw [hs] at hj
        simpa [Join] using hj
    · simp only
      rw [hsplit]
      simp
      omega
  · simp at hl

/-- C6 (witness): the candidate published for `a.b.example.com` under `example.com`. -/
theorem C6_candidate_witness :
    ("b.example.com".toList
      = (exampleRequest "a.b.example.com" "example.com").Name.drop
          (((Split (exampleRequest "a.b.example.com" "example.com").Name '.').headD []).length + 1)) ∧
    (Split (exampleRequest "a.b.example.com" "example.com").Domain '.').length
      ≤ (Split "b.example.com".toList '.').length :=
  have h := (C6_candidate exampleConfig (NewSubdomainService 0)
    (exampleRequest "a.b.example.com" "example.com")
    { Name := "b.example.com".toList, Domain := "example.com".toList, Records := [],
      Tag := "dns".toList, Source := "Forward DNS".toList } 1 (by decide)).1
  ⟨h.1, h.2.2.2.2.2⟩

/-! ## Theorems: `timesForSubdomain` -/

theorem wrapInt_id (x : Int) (h0 : -(2 ^ 63) ≤ x) (h1 : x < 2 ^ 63) : wrapInt x = x := by
  unfold wrapInt
  omega

theorem timesForSubdomain_step (ss : SubdomainService) (hist : List Str) (x : Str)
    (hinv : CountersMatch ss hist) (hlen : hist.length + 1 < 2 ^ 63) :
    (ss.timesForSubdomain x).2 = (hist.count x : Int) + 1 ∧
    CountersMatch (ss.timesForSubdomain x).1 (hist ++ [x]) := by
  have hx := hinv x
  have hle : hist.count x ≤ hist.length := List.count_le_length _ _
  have hval : (ss.timesForSubdomain x).2 = (hist.count x : Int) + 1 := by
    unfold SubdomainService.timesForSubdomain
    simp only [hx]
    by_cases h0 : hist.count x = 0
    · simp [h0]
    · simp only [h0, if_false]
      apply wrapInt_id <;> omega
  refine ⟨hval, ?_⟩
  intro s
  by_cases hs : s = x
  · subst hs
    have e : ((ss.timesForSubdomain s).1.subdomains s) = some (ss.timesForSubdomain s).2 := by
      simp [SubdomainService.timesForSubdomain]
    rw [e, hval]
    simp [List.count_append]
  · have e : ((ss.timesForSubdomain x).1.subdomains s) = ss.subdomains s := by
      simp [SubdomainService.timesForSubdomain, hs]
    rw [e, hinv s]
    have : ¬ x = s := fun h => hs h.symm
    simp [List.count_append, List.count_cons, this]

theorem timesRun_append (ss : SubdomainService) (xs ys : List Str) :
    (timesRun ss (xs ++ ys)).1 = (timesRun (timesRun ss xs).1 ys).1 := by
  induction xs generalizing ss with
  | nil => rfl
  | cons x xs ih => simp [timesRun, ih]

theorem timesRun_match (ss : SubdomainService) (hist xs : List Str)
    (hinv : CountersMatch ss hist) (hlen : hist.length + xs.length < 2 ^ 63) :
    CountersMatch (timesRun ss xs).1 (hist ++ xs) := by
  induction xs generalizing ss hist with
  | nil => simpa [timesRun] using hinv
  | cons x xs ih =>
    simp only [List.length_cons] at hlen
    have hstep := (timesForSubdomain_step ss hist x hinv (by omega)).2
    have := ih (ss.timesForSubdomain x).1 (hist ++ [x]) hstep (by simp; omega)
    simpa [timesRun] using this

theorem fresh_match (now : Int) : CountersMatch (NewSubdomainService now) [] := by
  intro s; simp [NewSubdomainService]

/-- C7: on a fresh service and for every sequence of `timesForSubdomain` calls (shorter
than the range of a Go `int`), the call made for a subdomain after `k - 1` earlier
calls for the same subdomain returns `k`; the stored counter of every subdomain never
decreases; and a call for one subdomain leaves the stored counter of every other
subdomain unchanged. -/
theorem C7_timesForSubdomain (now : Int) (subs : List Str) (hlen : subs.length < 2 ^ 63) :
    (∀ pre sub post, subs = pre ++ sub :: post →
      ((timesRun (NewSubdomainService now) pre).1.timesForSubdomain sub).2
        = (pre.count sub : Int) + 1) ∧
    (∀ pre sub post, subs = pre ++ sub :: post → ∀ s,
      ((timesRun (NewSubdomainService now) pre).1.subdomains s).getD 0
        ≤ ((timesRun (NewSubdomainService now) (pre ++ [sub])).1.subdomains s).getD 0) ∧
    (∀ (ss : SubdomainService) (sub other : Str), other ≠ sub →
      (ss.timesForSubdomain sub).1.subdomains other = ss.subdomains other) := by
  refine ⟨?_, ?_, ?_⟩
  · intro pre sub post hsub
    have hl : pre.length + 1 ≤ subs.length := by rw [hsub]; simp
    have hm := timesRun_match (NewSubdomainService now) [] pre (fresh_match now)
      (by simp; omega)
    simp only [List.nil_append] at hm
    exact (timesForSubdomain_step _ pre sub hm (by omega)).1
  · intro pre sub post hsub s
    have hl : pre.length + 1 ≤ subs.length := by rw [hsub]; simp
    have hm := timesRun_match (NewSubdomainService now) [] pre (fresh_match now)
      (by simp; omega)
    have hm2 := timesRun_match (NewSubdomainService now) [] (pre ++ [sub]) (fresh_match now)
      (by simp; omega)
    simp only [List.nil_append] at hm hm2
    rw [hm s, hm2 s]
    have hc : pre.count s ≤ (pre ++ [sub]).count s := by simp [List.count_append]
    by_cases h0 : pre.count s = 0
    · by_cases h1 : (pre ++ [sub]).count s = 0
      · simp [h0, h1]
      · simp only [h0, h1, if_true, if_false, Option.getD_none, Option.getD_some]
        omega
    · have h1 : (pre ++ [sub]).count s ≠ 0 := by omega
      simp only [h0, h1, if_false, Option.getD_some]
      omega
  · intro ss sub other hne
    simp [SubdomainService.timesForSubdomain, hne]

/-- C7 (witness): three calls, for `b.example.com`, `c.example.com` and `b.example.com`
again; the next call for `b.example.com` returns 3. -/
theorem C7_timesForSubdomain_witness :
    ((timesRun (NewSubdomainService 0)
        ["b.example.com".toList, "c.example.com".toList, "b.example.com".toList]).1.timesForSubdomain
      "b.example.com".toList).2 = 3 :=
  (C7_timesForSubdomain 0
    ["b.example.com".toList, "c.example.com".toList, "b.example.com".toList,
      "b.example.com".toList] (by decide)).1
    ["b.example.com".toList, "c.example.com".toList, "b.example.com".toList]
    "b.example.com".toList [] rfl

/-! ## Theorems: `performRequest` -/

theorem outputsOf_append (xs ys : List Effect) :
    outputsOf (xs ++ ys) = outputsOf xs ++ outputsOf ys := by
  induction xs with
  | nil => rfl
  | cons e es ih => cases e <;> simp [outputsOf, ih]

/-- What `performRequest` does to a `nil` or incomplete request. -/
theorem performRequest_malformed (cfg : AmassConfig) (ral : Str → Str) (now1 now2 : Int)
    (ss : SubdomainService) (req : Option AmassRequest)
    (h : req = none ∨ ∃ r, req = some r ∧ (r.Name = [] ∨ r.Domain = [])) :
    ss.performRequest cfg ral now1 now2 req = ss.sendRelease := by
  rcases h with rfl | ⟨r, rfl, hr⟩
  · rfl
  · simp [SubdomainService.performRequest, hr]

/-- What `performRequest` does to a complete request in passive mode. -/
theorem performRequest_passive (cfg : AmassConfig) (ral : Str → Str) (now1 now2 : Int)
    (ss : SubdomainService) (r : AmassRequest) (hn : r.Name ≠ []) (hd : r.Domain ≠ [])
    (hp : cfg.Passive = true) :
    (ss.performRequest cfg ral now1 now2 (some r)).log
      = ss.log ++ [Effect.completion now2]
          ++ (if ToLower (ral r.Name) ∈ ss.filter.seen then []
              else [Effect.publishOutput
                { Name := ToLower (ral r.Name), Domain := ToLower r.Domain, Tag := r.Tag,
                  Source := r.Source }])
          ++ [Effect.release] ∧
    (ss.performRequest cfg ral now1 now2 (some r)).filter.seen
      = (if ToLower (ral r.Name) ∈ ss.filter.seen then ss.filter.seen
         else ToLower (ral r.Name) :: ss.filter.seen) := by
  by_cases hdup : ToLower (ral r.Name) ∈ ss.filter.seen
  · simp [SubdomainService.performRequest, hn, hd, hp, StringFilter.Duplicate, hdup,
      SubdomainService.sendRelease, SubdomainService.emit]
  · simp [SubdomainService.performRequest, hn, hd, hp, StringFilter.Duplicate, hdup,
      SubdomainService.sendRelease, SubdomainService.emit]

/-- What `performRequest` does to a complete request in active mode. -/
theorem performRequest_active (cfg : AmassConfig) (ral : Str → Str) (now1 now2 : Int)
    (ss : SubdomainService) (r : AmassRequest) (hn : r.Name ≠ []) (hd : r.Domain ≠ [])
    (hp : cfg.Passive = false) :
    (ss.performRequest cfg ral now1 now2 (some r)).log
      = ss.log ++ [Effect.completion now2,
          Effect.publishDNSQuery
            { r with Name := ToLower (ral r.Name), Domain := ToLower r.Domain }] ∧
    (ss.performRequest cfg ral now1 now2 (some r)).filter = ss.filter := by
  simp [SubdomainService.performRequest, hn, hd, hp, SubdomainService.emit]

/-- C9: `performRequest` sends exactly one release signal, publishes nothing and leaves
the dedup filter unchanged when the request is `nil` or has an empty name or domain;
on a complete request in passive mode it sends exactly one release signal, whether the
name is new or not; on a complete request in active mode it sends no release signal
and publishes exactly one `DNSQUERY` event, which carries the request. -/
theorem C9_performRequest_release (cfg : AmassConfig) (ral : Str → Str) (now1 now2 : Int)
    (ss : SubdomainService) (req : Option AmassRequest) :
    ((req = none ∨ ∃ r, req = some r ∧ (r.Name = [] ∨ r.Domain = [])) →
      (ss.performRequest cfg ral now1 now2 req).log = ss.log ++ [Effect.release] ∧
      (ss.performRequest cfg ral now1 now2 req).filter = ss.filter) ∧
    (∀ r, req = some r → r.Name ≠ [] → r.Domain ≠ [] → cfg.Passive = true →
      (∃ pubs, (ss.performRequest cfg ral now1 now2 req).log
          = ss.log ++ [Effect.completion now2] ++ pubs ++ [Effect.release] ∧
        pubs.count Effect.release = 0) ∧
      (ss.performRequest cfg ral now1 now2 req).log.count Effect.release
        = ss.log.count Effect.release + 1) ∧
    (∀ r, req = some r → r.Name ≠ [] → r.Domain ≠ [] → cfg.Passive = false →
      (ss.performRequest cfg ral now1 now2 req).log
        = ss.log ++ [Effect.completion now2,
            Effect.publishDNSQuery
              { r with Name := ToLower (ral r.Name), Domain := ToLower r.Domain }] ∧
      (ss.performRequest cfg ral now1 now2 req).log.count Effect.release
        = ss.log.count Effect.release) := by
  refine ⟨?_, ?_, ?_⟩
  · intro h
    rw [performRequest_malformed cfg ral now1 now2 ss req h]
    exact ⟨rfl, rfl⟩
  · rintro r rfl hn hd hp
    have h := (performRequest_passive cfg ral now1 now2 ss r hn hd hp).1
    rw [h]
    by_cases hdup : ToLower (ral r.Name) ∈ ss.filter.seen
    · simp only [hdup, if_true]
      exact ⟨⟨[], rfl, rfl⟩, by simp [List.count_append, List.count_cons]⟩
    · simp only [hdup, if_false]
      exact ⟨⟨_, rfl, by simp [List.count_cons]⟩, by simp [List.count_append, List.count_cons]⟩
  · rintro r rfl hn hd hp
    have h := (performRequest_active cfg ral now1 now2 ss r hn hd hp).1
    rw [h]
    exact ⟨rfl, by simp [List.count_append, List.count_cons]⟩

theorem performAll_append (cfg : AmassConfig) (ral : Str → Str) (ss : SubdomainService)
    (xs ys : List (Int × Int × Option AmassRequest)) :
    performAll cfg ral ss (xs ++ ys) = performAll cfg ral (performAll cfg ral ss xs) ys := by
  induction xs generalizing ss with
  | nil => rfl
  | cons c cs ih => simp [performAll, ih]

/-- In passive mode the filter holds the normalised names of the requests handled. -/
theorem performAll_seen (cfg : AmassConfig) (ral : Str → Str) (hp : cfg.Passive = true)
    (calls : List (Int × Int × AmassRequest)) (ss : SubdomainService)
    (hwf : ∀ c ∈ calls, c.2.2.Name ≠ [] ∧ c.2.2.Domain ≠ []) (n : Str) :
    n ∈ (performAll cfg ral ss (calls.map fun c => (c.1, c.2.1, some c.2.2))).filter.seen ↔
      (n ∈ ss.filter.seen ∨ n ∈ calls.map fun c => ToLower (ral c.2.2.Name)) := by
  induction calls generalizing ss with
  | nil => simp [performAll]
  | cons c cs ih =>
    have hc := hwf c (List.mem_cons_self _ _)
    have hs := (performRequest_passive cfg ral c.1 c.2.1 ss c.2.2 hc.1 hc.2 hp).2
    simp only [List.map_cons, performAll]
    rw [ih _ (fun x hx => hwf x (List.mem_cons_of_mem _ hx)), hs]
    by_cases hdup : ToLower (ral c.2.2.Name) ∈ ss.filter.seen
    · simp only [hdup, if_true, List.mem_cons]
      constructor
      · rintro (h | h)
        · exact Or.inl h
        · exact Or.inr (Or.inr h)
      · rintro (h | h | h)
        · exact Or.inl h
        · exact Or.inl (h ▸ hdup)
        · exact Or.inr h
    · simp only [hdup, if_false, List.mem_cons]
      tauto

/-- In passive mode the request handled last yields a record exactly when its
normalised name is new. -/
theorem performAll_outputs_snoc (cfg : AmassConfig) (ral : Str → Str) (now : Int)
    (hp : cfg.Passive = true) (pre : List (Int × Int × AmassRequest))
    (c : Int × Int × AmassRequest)
    (hw : ∀ x ∈ pre ++ [c], x.2.2.Name ≠ [] ∧ x.2.2.Domain ≠ []) :
    outputsOf (performAll cfg ral (NewSubdomainService now)
        ((pre ++ [c]).map fun c => (c.1, c.2.1, some c.2.2))).log
      = outputsOf (performAll cfg ral (NewSubdomainService now)
          (pre.map fun c => (c.1, c.2.1, some c.2.2))).log
        ++ (if ToLower (ral c.2.2.Name) ∈ pre.map (fun p => ToLower (ral p.2.2.Name)) then []
            else [{ Name := ToLower (ral c.2.2.Name), Domain := ToLower c.2.2.Domain,
                    Tag := c.2.2.Tag, Source := c.2.2.Source }]) := by
  have hc := hw c (by simp)
  have hpre : ∀ x ∈ pre, x.2.2.Name ≠ [] ∧ x.2.2.Domain ≠ [] :=
    fun x hx => hw x (List.mem_append_left _ hx)
  have hseen := performAll_seen cfg ral hp pre (NewSubdomainService now) hpre
    (ToLower (ral c.2.2.Name))
  have hfresh : (NewSubdomainService now).filter.seen = [] := rfl
  rw [hfresh] at hseen
  simp only [List.not_mem_nil, false_or] at hseen
  rw [List.map_append, performAll_append]
  simp only [List.map_cons, List.map_nil, performAll]
  rw [(performRequest_passive cfg ral c.1 c.2.1 _ c.2.2 hc.1 hc.2 hp).1]
  simp only [outputsOf_append]
  by_cases hdup : ToLower (ral c.2.2.Name) ∈ pre.map (fun p => ToLower (ral p.2.2.Name))
  · rw [if_pos (hseen.mpr hdup), if_pos hdup]
    simp [outputsOf]
  · rw [if_neg (fun h => hdup (hseen.mp h)), if_neg hdup]
    simp [outputsOf]

/-- In passive mode every normalised name that occurs gets exactly one record. -/
theorem performAll_outputs_count (cfg : AmassConfig) (ral : Str → Str) (now : Int)
    (hp : cfg.Passive = true) (calls : List (Int × Int × AmassRequest))
    (hwf : ∀ c ∈ calls, c.2.2.Name ≠ [] ∧ c.2.2.Domain ≠ []) (name : Str) :
    (outputsOf (performAll cfg ral (NewSubdomainService now)
        (calls.map fun c => (c.1, c.2.1, some c.2.2))).log).countP (fun o => o.Name = name)
      = if name ∈ calls.map (fun c => ToLower (ral c.2.2.Name)) then 1 else 0 := by
  induction calls using List.reverseRecOn with
  | nil => simp [performAll, NewSubdomainService, outputsOf]
  | append_singleton pre c ih =>
    have ih2 := ih (fun x hx => hwf x (List.mem_append_left _ hx))
    rw [performAll_outputs_snoc cfg ral now hp pre c hwf, List.countP_append, ih2]
    by_cases hdup : ToLower (ral c.2.2.Name) ∈ pre.map (fun p => ToLower (ral p.2.2.Name))
    · rw [if_pos hdup]
      by_cases hn : name ∈ pre.map (fun c => ToLower (ral c.2.2.Name))
      · have : name ∈ (pre ++ [c]).map (fun c => ToLower (ral c.2.2.Name)) := by
          rw [List.map_append]; exact List.mem_append_left _ hn
        rw [if_pos hn, if_pos this]
        simp
      · have hne : ¬ ToLower (ral c.2.2.Name) = name := fun h => hn (h ▸ hdup)
        have : name ∉ (pre ++ [c]).map (fun c => ToLower (ral c.2.2.Name)) := by
          simp only [List.map_append, List.map_cons, List.map_nil, List.mem_append,
            List.mem_singleton, not_or]
          exact ⟨hn, fun h => hne h.symm⟩
        rw [if_neg hn, if_neg this]
        simp
    · rw [if_neg hdup]
      by_cases he : ToLower (ral c.2.2.Name) = name
      · have hn : name ∉ pre.map (fun c => ToLower (ral c.2.2.Name)) := he ▸ hdup
        have : name ∈ (pre ++ [c]).map (fun c => ToLower (ral c.2.2.Name)) := by
          simp [he]
        rw [if_neg hn, if_pos this]
        simp [List.countP_cons, he]
      · by_cases hn : name ∈ pre.map (fun c => ToLower (ral c.2.2.Name))
        · have : name ∈ (pre ++ [c]).map (fun c => ToLower (ral c.2.2.Name)) := by
            rw [List.map_append]; exact List.mem_append_left _ hn
          rw [if_pos hn, if_pos this]
          simp [List.countP_cons, he]
        · have : name ∉ (pre ++ [c]).map (fun c => ToLower (ral c.2.2.Name)) := by
            simp only [List.map_append, List.map_cons, List.map_nil, List.mem_append,
              List.mem_singleton, not_or]
            exact ⟨hn, fun h => he h.symm⟩
          rw [if_neg hn, if_neg this]
          simp [List.countP_cons, he]

theorem Pipeline_run_empty (cfg : AmassConfig) (ral : Str → Str) (now : Int) (n : Nat)
    (p : Pipeline) (h : p.queue = []) : Pipeline.run cfg ral now n p = p := by
  induction n with
  | zero => rfl
  | succ n ih =>
    have : p.step cfg ral now = p := by simp [Pipeline.step, h]
    rw [Pipeline.run, this, ih]

theorem cleanName_www : cleanName wwwName = wwwName := by decide

theorem ToLower_www : ToLower wwwName = wwwName := by decide

theorem ToLower_test : ToLower testDomain = testDomain := by decide

theorem www_ne_test : wwwName ≠ testDomain := by decide

theorem www_ne_nil : wwwName ≠ [] := by decide

theorem test_ne_nil : testDomain ≠ [] := by decide

theorem Pipeline_run_add (cfg : AmassConfig) (ral : Str → Str) (now : Int) (m n : Nat)
    (p : Pipeline) :
    Pipeline.run cfg ral now (m + n) p = Pipeline.run cfg ral now n (Pipeline.run cfg ral now m p) := by
  induction m generalizing p with
  | zero => simp [Pipeline.run]
  | succ m ih => rw [Nat.succ_add, Pipeline.run, Pipeline.run, ih]

/-- The one-source scenario after two steps: the queue is empty and one record has been
published. -/
theorem scenario_two_steps (scope : Str → Bool) (ral : Str → Str) (sname stype ARCHIVE : Str)
    (subs : Bool) (now : Int)
    (hscope : scope testDomain = true) (htype : stype ≠ ARCHIVE)
    (hral : ral wwwName = wwwName) :
    (Pipeline.run (testConfig scope) ral now 2 (Pipeline.start (testConfig scope)
        [stubSource sname stype subs [wwwName]] ARCHIVE now)).queue = [] ∧
    outputsOf (Pipeline.run (testConfig scope) ral now 2 (Pipeline.start (testConfig scope)
        [stubSource sname stype subs [wwwName]] ARCHIVE now)).sub.log
      = [{ Name := wwwName, Domain := testDomain, Tag := stype, Source := sname }] := by
  cases hs : scope wwwName <;> cases subs <;>
    simp [Pipeline.run, Pipeline.start, Pipeline.step, SourcesService.queryAllSources,
      testConfig, NewSourcesService, stubSource, htype, SourcesService.handleRequest,
      NewStringFilter, StringFilter.Duplicate, hscope, hs, List.flatMap,
      SourcesService.queryOneSource, Pipeline.deliver, SourcesService.handleOutput,
      cleanName_www, ToLower_www, ToLower_test, www_ne_test, www_ne_nil, test_ne_nil, hral,
      SubdomainService.performRequest, SourcesService.emit, SubdomainService.emit,
      SubdomainService.sendRelease, NewSubdomainService, outputsOf]

/-- C8: in passive mode, for every sequence of complete requests handled by
`performRequest` on a fresh service, a request yields an `OUTPUT` record exactly when no
earlier request has the same normalised name (`RemoveAsteriskLabel`, then lower case),
that record carries the normalised name with the request's lower-cased root domain, tag
and source, and so every normalised name that occurs gets exactly one record; with root
domain `test.com` and one direct source that returns `www.test.com`, the pipeline
publishes, from its second step on, exactly one record, for `www.test.com`, with the
source's type as tag and the source's name as source. -/
theorem C8_passive_outputs (cfg : AmassConfig) (ral : Str → Str) (now : Int)
    (calls : List (Int × Int × AmassRequest)) (scope : Str → Bool)
    (sname stype ARCHIVE : Str) (subs : Bool) (k : Nat)
    (hp : cfg.Passive = true)
    (hwf : ∀ c ∈ calls, c.2.2.Name ≠ [] ∧ c.2.2.Domain ≠ [])
    (hscope : scope testDomain = true) (htype : stype ≠ ARCHIVE)
    (hral : ral wwwName = wwwName) :
    (∀ pre c post, calls = pre ++ c :: post →
      outputsOf (performAll cfg ral (NewSubdomainService now)
          ((pre ++ [c]).map fun c => (c.1, c.2.1, some c.2.2))).log
        = outputsOf (performAll cfg ral (NewSubdomainService now)
            (pre.map fun c => (c.1, c.2.1, some c.2.2))).log
          ++ (if ToLower (ral c.2.2.Name) ∈ pre.map (fun p => ToLower (ral p.2.2.Name)) then []
              else [{ Name := ToLower (ral c.2.2.Name), Domain := ToLower c.2.2.Domain,
                      Tag := c.2.2.Tag, Source := c.2.2.Source }])) ∧
    (∀ name, (outputsOf (performAll cfg ral (NewSubdomainService now)
          (calls.map fun c => (c.1, c.2.1, some c.2.2))).log).countP (fun o => o.Name = name)
        = if name ∈ calls.map (fun c => ToLower (ral c.2.2.Name)) then 1 else 0) ∧
    outputsOf (Pipeline.run (testConfig scope) ral now (2 + k)
        (Pipeline.start (testConfig scope) [stubSource sname stype subs [wwwName]]
          ARCHIVE now)).sub.log
      = [{ Name := wwwName, Domain := testDomain, Tag := stype, Source := sname }] := by
  refine ⟨?_, performAll_outputs_count cfg ral now hp calls hwf, ?_⟩
  · intro pre c post hcalls
    apply performAll_outputs_snoc cfg ral now hp
    intro x hx
    apply hwf
    rw [hcalls]
    rcases List.mem_append.mp hx with h | h
    · exact List.mem_append_left _ h
    · simp only [List.mem_singleton] at h
      subst h
      simp
  · obtain ⟨hq, ho⟩ := scenario_two_steps scope ral sname stype ARCHIVE subs now hscope htype hral
    rw [Pipeline_run_add, Pipeline_run_empty _ _ _ _ _ hq]
    exact ho

/-- C8 (witness): the requests `É.test.com`, `WWW.test.com`, `é.test.com` and
`www.test.com` yield one record for `é.test.com` and one for `www.test.com`, and the
one-source pipeline yields one record after three steps. -/
theorem C8_passive_outputs_witness :
    (outputsOf (performAll exampleConfig id (NewSubdomainService 0)
        [(0, 0, some (exampleRequest "É.test.com" "test.com")),
         (1, 1, some (exampleRequest "WWW.test.com" "test.com")),
         (2, 2, some (exampleRequest "é.test.com" "test.com")),
         (3, 3, some (exampleRequest "www.test.com" "test.com"))]).log).countP
        (fun o => o.Name = "é.test.com".toList) = 1 ∧
    (outputsOf (performAll exampleConfig id (NewSubdomainService 0)
        [(0, 0, some (exampleRequest "É.test.com" "test.com")),
         (1, 1, some (exampleRequest "WWW.test.com" "test.com")),
         (2, 2, some (exampleRequest "é.test.com" "test.com")),
         (3, 3, some (exampleRequest "www.test.com" "test.com"))]).log).countP
        (fun o => o.Name = wwwName) = 1 ∧
    outputsOf (Pipeline.run (testConfig fun _ => true) id 0 (2 + 1)
        (Pipeline.start (testConfig fun _ => true)
          [stubSource "stub".toList "scrape".toList true [wwwName]] "archive".toList 0)).sub.log
      = [{ Name := wwwName, Domain := testDomain, Tag := "scrape".toList,
           Source := "stub".toList }] :=
  have h := C8_passive_outputs exampleConfig id 0
    [(0, 0, exampleRequest "É.test.com" "test.com"),
     (1, 1, exampleRequest "WWW.test.com" "test.com"),
     (2, 2, exampleRequest "é.test.com" "test.com"),
     (3, 3, exampleRequest "www.test.com" "test.com")]
    (fun _ => true) "stub".toList "scrape".toList "archive".toList true 1
    rfl (by decide) rfl (by decide) rfl
  ⟨(h.2.1 "é.test.com".toList).trans (by decide), (h.2.1 wwwName).trans (by decide), h.2.2⟩

/-- C9 (witness): an incomplete request in passive mode, a complete one in passive mode
and a complete one in active mode. -/
theorem C9_performRequest_release_witness :
    ((NewSubdomainService 0).performRequest exampleConfig id 1 2
        (some (exampleRequest "" "test.com"))).log = [Effect.release] ∧
    ((NewSubdomainService 0).performRequest exampleConfig id 1 2
        (some (exampleRequest "www.test.com" "test.com"))).log.count Effect.release = 1 ∧
    ((NewSubdomainService 0).performRequest { exampleConfig with Passive := false } id 1 2
        (some (exampleRequest "www.test.com" "test.com"))).log.count Effect.release = 0 :=
  ⟨((C9_performRequest_release exampleConfig id 1 2 (NewSubdomainService 0)
        (some (exampleRequest "" "test.com"))).1
      (Or.inr ⟨_, rfl, Or.inl rfl⟩)).1,
    ((C9_performRequest_release exampleConfig id 1 2 (NewSubdomainService 0)
        (some (exampleRequest "www.test.com" "test.com"))).2.1 _ rfl (by decide) (by decide)
      rfl).2,
    ((C9_performRequest_release { exampleConfig with Passive := false } id 1 2
        (NewSubdomainService 0)
        (some (exampleRequest "www.test.com" "test.com"))).2.2 _ rfl (by decide) (by decide)
      rfl).2⟩

/-! ## Theorems: `processReleases` -/

theorem processReleases_snoc (pre : List RelEvent) (e : RelEvent) :
    processReleases (pre ++ [e]) = processReleasesStep (processReleases pre) e := by
  simp [processReleases, List.foldl_append]

/-- While the counter cannot overflow, `rcount` is the number of signals received and
not yet matched by a release. -/
theorem processReleases_rcount (l : List RelEvent) (hlen : l.length < 2 ^ 63) :
    (processReleases l).rcount
        = (l.count RelEvent.signal : Int) - ((processReleases l).released : Int) ∧
    (processReleases l).released ≤ l.count RelEvent.signal := by
  induction l using List.reverseRecOn with
  | nil => simp [processReleases]
  | append_singleton pre e ih =>
    have hl : pre.length < 2 ^ 63 := by
      simp only [List.length_append, List.length_singleton] at hlen; omega
    have hl2 : pre.length + 1 < 2 ^ 63 := by
      simpa only [List.length_append, List.length_singleton] using hlen
    obtain ⟨h1, h2⟩ := ih hl
    have hc : pre.count RelEvent.signal ≤ pre.length := List.count_le_length _ _
    rw [processReleases_snoc]
    cases e with
    | tick =>
      have hcount : (pre ++ [RelEvent.tick]).count RelEvent.signal
          = pre.count RelEvent.signal := by
        simp [List.count_append, List.count_cons]
      rw [hcount]
      unfold processReleasesStep
      by_cases hpos : (processReleases pre).rcount > 0
      · simp only [hpos, if_true]
        rw [wrapInt_id _ (by omega) (by omega)]
        constructor
        · push_cast; omega
        · omega
      · simp only [hpos, if_false]
        exact ⟨h1, h2⟩
    | signal =>
      have hcount : (pre ++ [RelEvent.signal]).count RelEvent.signal
          = pre.count RelEvent.signal + 1 := by
        simp [List.count_append, List.count_cons]
      rw [hcount]
      unfold processReleasesStep
      simp only
      rw [wrapInt_id _ (by omega) (by omega)]
      constructor
      · push_cast; omega
      · omega

/-- C10: in every run of `processReleases` (shorter than the range of a Go `int`), a
tick releases exactly one admission token when at least one received signal has not
yet been matched by a release and none otherwise, a received signal releases none, and
at every point the number of tokens released is at most the number of signals
received. -/
theorem C10_processReleases (evs : List RelEvent) (hlen : evs.length < 2 ^ 63) :
    (∀ pre post, evs = pre ++ RelEvent.tick :: post →
      (processReleases (pre ++ [RelEvent.tick])).released
        = (processReleases pre).released
          + (if (processReleases pre).released < pre.count RelEvent.signal then 1 else 0)) ∧
    (∀ pre post, evs = pre ++ RelEvent.signal :: post →
      (processReleases (pre ++ [RelEvent.signal])).released = (processReleases pre).released) ∧
    (∀ pre post, evs = pre ++ post →
      (processReleases pre).released ≤ pre.count RelEvent.signal) := by
  refine ⟨?_, ?_, ?_⟩
  · intro pre post he
    have hl : pre.length < 2 ^ 63 := by
      have := congrArg List.length he
      simp only [List.length_append, List.length_cons] at this
      omega
    obtain ⟨h1, h2⟩ := processReleases_rcount pre hl
    rw [processReleases_snoc]
    unfold processReleasesStep
    by_cases hpos : (processReleases pre).rcount > 0
    · have : (processReleases pre).released < pre.count RelEvent.signal := by omega
      simp [hpos, this]
    · have : ¬ (processReleases pre).released < pre.count RelEvent.signal := by omega
      simp [hpos, this]
  · intro pre post _
    rw [processReleases_snoc]
    rfl
  · intro pre post he
    have hl : pre.length < 2 ^ 63 := by
      have := congrArg List.length he
      simp only [List.length_append] at this
      omega
    exact (processReleases_rcount pre hl).2

/-- C10 (witness): three signals in a burst, then a tick: the tick releases one token,
since no release has matched the three signals yet. -/
theorem C10_processReleases_witness :
    (processReleases ([RelEvent.signal, RelEvent.signal, RelEvent.signal]
        ++ [RelEvent.tick])).released
      = (processReleases [RelEvent.signal, RelEvent.signal, RelEvent.signal]).released
        + (if (processReleases [RelEvent.signal, RelEvent.signal, RelEvent.signal]).released
              < [RelEvent.signal, RelEvent.signal, RelEvent.signal].count RelEvent.signal
           then 1 else 0) :=
  (C10_processReleases
      [RelEvent.signal, RelEvent.signal, RelEvent.signal, RelEvent.tick] (by decide)).1
    [RelEvent.signal, RelEvent.signal, RelEvent.signal] [] rfl


/-! ## Instances of the lifecycle theorems -/

/-- C1 (witness): a second `Start` returns a usage error and leaves the log and the
flags as they were. -/
theorem C1_start_usage_error_witness :
    (∃ msg, ((((NewBaseAmassService "Sources Service".toList 0).Start baseHooks).1).Start
        baseHooks).2 = some (Err.usage msg)) ∧
    ((((NewBaseAmassService "Sources Service".toList 0).Start baseHooks).1).Start baseHooks).1.log
      = ((NewBaseAmassService "Sources Service".toList 0).Start baseHooks).1.log :=
  ⟨(C1_start_usage_error baseHooks
        ((NewBaseAmassService "Sources Service".toList 0).Start baseHooks).1).1.mpr (Or.inl rfl),
    ((C1_start_usage_error baseHooks
        ((NewBaseAmassService "Sources Service".toList 0).Start baseHooks).1).2
      ((C1_start_usage_error baseHooks
        ((NewBaseAmassService "Sources Service".toList 0).Start baseHooks).1).1.mpr
          (Or.inl rfl))).1⟩

/-- C2 (witness): in `Start, Pause, Stop, Resume, Start, Stop` the first `Stop` closes
the quit channel and the later `Start` is rejected with the service left as it was. -/
theorem C2_stopped_terminal_witness :
    (runCalls baseHooks (NewBaseAmassService "Sources Service".toList 0)
        ([Call.start, Call.pause] ++ [Call.stop])).quitCloses = 1 ∧
    (doCall baseHooks (runCalls baseHooks (NewBaseAmassService "Sources Service".toList 0)
        [Call.start, Call.pause, Call.stop, Call.resume]) Call.start).1
      = runCalls baseHooks (NewBaseAmassService "Sources Service".toList 0)
          [Call.start, Call.pause, Call.stop, Call.resume] :=
  ⟨((C2_stopped_terminal baseHooks "Sources Service".toList 0
        [Call.start, Call.pause, Call.stop, Call.resume, Call.start, Call.stop]).2.1
      [Call.start, Call.pause] [Call.resume, Call.start, Call.stop] rfl (by decide)).2.1,
    ((C2_stopped_terminal baseHooks "Sources Service".toList 0
        [Call.start, Call.pause, Call.stop, Call.resume, Call.start, Call.stop]).2.2
      [Call.start, Call.pause, Call.stop, Call.resume] Call.start [Call.stop] rfl (by decide)
      (Or.inl rfl)).2.1⟩

/-- C3 (witness): a service built at 0 and marked at 5 s is not active at 16 s. -/
theorem C3_isActive_window_witness :
    (markAll (NewBaseAmassService "Sources Service".toList 0) [5 * second]).IsActive
      (16 * second) = false :=
  (C3_isActive_window "Sources Service".toList 0 [5 * second] (16 * second)).2.2 (by decide)

/-! ## Theorems: the throttle queue -/

theorem throttleNext_result (ss : SourcesService) :
    ss.throttleNext.2 = ss.throttleQueue.head? ∧
    ss.throttleNext.1.throttleQueue = ss.throttleQueue.tail := by
  unfold SourcesService.throttleNext
  split <;> simp_all

theorem throttleAdd_queue (ss : SourcesService) (source : DataSource) (domain sub : Str) :
    (ss.throttleAdd source domain sub).throttleQueue
      = ss.throttleQueue ++ [{ Source := source, Domain := domain, Sub := sub }] := rfl

/-- What `throttleNext` has returned so far, followed by what is still queued, is what
was queued at first followed by what was added. -/
theorem runQueueCalls_fifo (cs : List QueueCall) (ss : SourcesService) :
    (runQueueCalls ss cs).2.filterMap id ++ (runQueueCalls ss cs).1.throttleQueue
      = ss.throttleQueue ++ addedEntries cs := by
  induction cs generalizing ss with
  | nil => simp [runQueueCalls, addedEntries]
  | cons c cs ih =>
    cases c with
    | add source domain sub =>
      simp only [runQueueCalls, addedEntries]
      rw [ih, throttleAdd_queue]
      simp
    | next =>
      simp only [runQueueCalls, addedEntries]
      obtain ⟨h1, h2⟩ := throttleNext_result ss
      rcases hq : ss.throttleQueue with _ | ⟨e, rest⟩
      · rw [hq] at h1 h2
        simp only [List.head?_nil, List.tail_nil] at h1 h2
        simp [h1, ih, h2]
      · rw [hq] at h1 h2
        simp only [List.head?_cons, List.tail_cons] at h1 h2
        simp [h1, ih, h2]

/-- C12: the throttle queue is first in, first out: for every sequence of `throttleAdd`
and `throttleNext` calls on a new service, the entries that `throttleNext` returned, in
the order returned, followed by the entries still queued, are the entries added, in the
order added (so each entry is returned at most once and none is lost);
`throttleNext` returns `nil` exactly when the queue is empty, and then leaves it empty;
otherwise it returns the head of the queue and leaves the rest. -/
theorem C12_throttle_fifo (all : List DataSource) (ARCHIVE : Str) (now : Int)
    (calls : List QueueCall) :
    ((runQueueCalls (NewSourcesService all ARCHIVE now) calls).2.filterMap id
        ++ (runQueueCalls (NewSourcesService all ARCHIVE now) calls).1.throttleQueue
      = addedEntries calls) ∧
    (∀ pre post, calls = pre ++ QueueCall.next :: post →
      (((runQueueCalls (NewSourcesService all ARCHIVE now) pre).1.throttleNext.2 = none ↔
          (runQueueCalls (NewSourcesService all ARCHIVE now) pre).1.throttleQueue = []) ∧
        ((runQueueCalls (NewSourcesService all ARCHIVE now) pre).1.throttleNext.2 = none →
          (runQueueCalls (NewSourcesService all ARCHIVE now)
            pre).1.throttleNext.1.throttleQueue = []) ∧
        (∀ e, (runQueueCalls (NewSourcesService all ARCHIVE now) pre).1.throttleNext.2 = some e →
          (runQueueCalls (NewSourcesService all ARCHIVE now) pre).1.throttleQueue
            = e :: (runQueueCalls (NewSourcesService all ARCHIVE now)
                pre).1.throttleNext.1.throttleQueue))) := by
  refine ⟨?_, ?_⟩
  · have h := runQueueCalls_fifo calls (NewSourcesService all ARCHIVE now)
    simpa [NewSourcesService] using h
  · intro pre post _
    obtain ⟨h1, h2⟩ := throttleNext_result (runQueueCalls (NewSourcesService all ARCHIVE now) pre).1
    rw [h1, h2]
    rcases (runQueueCalls (NewSourcesService all ARCHIVE now) pre).1.throttleQueue with _ | ⟨e, rest⟩
    · simp
    · simp

/-- C12 (witness): two entries are added, one is taken, a third is added, and three
more are taken: the entries come back in the order added and the last call returns
`nil`. -/
theorem C12_throttle_fifo_witness :
    (runQueueCalls (NewSourcesService [] [] 0)
        [QueueCall.add (stubSource ['A'] [] true []) testDomain ['a'],
         QueueCall.add (stubSource ['B'] [] true []) testDomain ['b'],
         QueueCall.next,
         QueueCall.add (stubSource ['C'] [] true []) testDomain ['c'],
         QueueCall.next, QueueCall.next, QueueCall.next]).2.filterMap id
      ++ (runQueueCalls (NewSourcesService [] [] 0)
        [QueueCall.add (stubSource ['A'] [] true []) testDomain ['a'],
         QueueCall.add (stubSource ['B'] [] true []) testDomain ['b'],
         QueueCall.next,
         QueueCall.add (stubSource ['C'] [] true []) testDomain ['c'],
         QueueCall.next, QueueCall.next, QueueCall.next]).1.throttleQueue
      = addedEntries
        [QueueCall.add (stubSource ['A'] [] true []) testDomain ['a'],
         QueueCall.add (stubSource ['B'] [] true []) testDomain ['b'],
         QueueCall.next,
         QueueCall.add (stubSource ['C'] [] true []) testDomain ['c'],
         QueueCall.next, QueueCall.next, QueueCall.next] :=
  (C12_throttle_fifo [] [] 0
    [QueueCall.add (stubSource ['A'] [] true []) testDomain ['a'],
     QueueCall.add (stubSource ['B'] [] true []) testDomain ['b'],
     QueueCall.next,
     QueueCall.add (stubSource ['C'] [] true []) testDomain ['c'],
     QueueCall.next, QueueCall.next, QueueCall.next]).1

/-! ## Theorems: the throttle loop -/

theorem SlotsAccounted_init (ss : SourcesService) : SlotsAccounted (ThrottleState.init ss) := by
  simp [SlotsAccounted, ThrottleState.init, NewSemaphore]

theorem SlotsAccounted_step (st : ThrottleState) (e : ThrottleEvent)
    (h : SlotsAccounted st) : SlotsAccounted (processThrottleQueueStep st e) := by
  obtain ⟨hc, hs, hle⟩ := h
  cases e with
  | tick =>
    unfold processThrottleQueueStep
    by_cases hfull : st.max.held + 1 ≤ st.max.capacity
    · simp only [Semaphore.TryAcquire, hfull, if_true, Bool.not_true, Bool.false_eq_true,
        if_false]
      cases hn : st.ss.throttleNext.2 with
      | none =>
        simp only [SlotsAccounted, Semaphore.Release]
        refine ⟨hc, ?_, ?_⟩ <;> simp <;> omega
      | some th =>
        simp only [SlotsAccounted, List.length_append, List.length_singleton]
        refine ⟨hc, ?_, ?_⟩ <;> omega
    · simp only [Semaphore.TryAcquire, hfull, if_false, Bool.not_false, if_true]
      exact ⟨hc, hs, hle⟩
  | recvDone =>
    unfold processThrottleQueueStep
    by_cases hd : st.done = 0
    · simp only [hd, if_true]
      exact ⟨hc, by omega, hle⟩
    · simp only [hd, if_false, SlotsAccounted, Semaphore.Release]
      refine ⟨hc, ?_, ?_⟩ <;> omega
  | pause => exact ⟨hc, hs, hle⟩
  | resume => exact ⟨hc, hs, hle⟩
  | finish i =>
    cases hg : st.running.get? i with
    | none =>
      simp only [processThrottleQueueStep, hg]
      exact ⟨hc, hs, hle⟩
    | some th =>
      simp only [processThrottleQueueStep, hg]
      have hi : i < st.running.length := by
        by_contra hcon
        have : st.running.get? i = none := List.get?_eq_none.mpr (by omega)
        rw [this] at hg
        exact Option.noConfusion hg
      by_cases hd : st.done < 20
      · simp only [hd, if_true, SlotsAccounted, List.length_eraseIdx, hi]
        refine ⟨hc, ?_, hle⟩
        omega
      · simp only [hd, if_false]
        exact ⟨hc, hs, hle⟩
  | add source domain sub => exact ⟨hc, hs, hle⟩

theorem processThrottleQueue_snoc (ss : SourcesService) (evs : List ThrottleEvent)
    (e : ThrottleEvent) :
    processThrottleQueue ss (evs ++ [e])
      = processThrottleQueueStep (processThrottleQueue ss evs) e := by
  simp [processThrottleQueue, List.foldl_append]

theorem SlotsAccounted_reachable (ss : SourcesService) (evs : List ThrottleEvent) :
    SlotsAccounted (processThrottleQueue ss evs) := by
  induction evs using List.reverseRecOn with
  | nil => exact SlotsAccounted_init ss
  | append_singleton pre e ih =>
    rw [processThrottleQueue_snoc]
    exact SlotsAccounted_step _ e ih

set_option maxRecDepth 20000 in
theorem fifty_ticks :
    (processThrottleQueue fiftyQueued (List.replicate 50 ThrottleEvent.tick)).running.length = 20 ∧
    (processThrottleQueue fiftyQueued
      (List.replicate 50 ThrottleEvent.tick)).ss.throttleQueue.length = 30 := by
  decide

/-- C11: in every state that the loop of `processThrottleQueue` reaches, through ticks,
completions of queries, receipts from `done`, pauses, resumes and additions to the
queue in any order and from any queue, at most 20 throttled queries are in flight, and
the slots held are exactly those of the queries in flight and of the completions not
yet received; a tick that finds the throttle queue empty leaves the number of held slots
unchanged and starts no query; a completed query puts one message on `done` and the
receipt of one message gives back exactly one slot; and with 50 queued entries, 50
ticks and no completion, 20 queries are in flight and 30 entries are still queued. -/
theorem C11_throttle_in_flight (ss : SourcesService) (evs : List ThrottleEvent) :
    (processThrottleQueue ss evs).running.length ≤ 20 ∧
    (processThrottleQueue ss evs).running.length + (processThrottleQueue ss evs).done
      = (processThrottleQueue ss evs).max.held ∧
    ((processThrottleQueue ss evs).ss.throttleQueue = [] →
      (processThrottleQueueStep (processThrottleQueue ss evs) ThrottleEvent.tick).max.held
        = (processThrottleQueue ss evs).max.held ∧
      (processThrottleQueueStep (processThrottleQueue ss evs) ThrottleEvent.tick).running
        = (processThrottleQueue ss evs).running) ∧
    (∀ i, i < (processThrottleQueue ss evs).running.length →
      (processThrottleQueueStep (processThrottleQueue ss evs)
          (ThrottleEvent.finish i)).running.length + 1
        = (processThrottleQueue ss evs).running.length ∧
      (processThrottleQueueStep (processThrottleQueue ss evs) (ThrottleEvent.finish i)).done
        = (processThrottleQueue ss evs).done + 1 ∧
      (processThrottleQueueStep (processThrottleQueue ss evs) (ThrottleEvent.finish i)).max.held
        = (processThrottleQueue ss evs).max.held) ∧
    (0 < (processThrottleQueue ss evs).done →
      (processThrottleQueueStep (processThrottleQueue ss evs) ThrottleEvent.recvDone).max.held + 1
        = (processThrottleQueue ss evs).max.held ∧
      (processThrottleQueueStep (processThrottleQueue ss evs) ThrottleEvent.recvDone).done + 1
        = (processThrottleQueue ss evs).done) ∧
    ((processThrottleQueue fiftyQueued (List.replicate 50 ThrottleEvent.tick)).running.length
        = 20 ∧
      (processThrottleQueue fiftyQueued
        (List.replicate 50 ThrottleEvent.tick)).ss.throttleQueue.length = 30) := by
  obtain ⟨hc, hs, hle⟩ := SlotsAccounted_reachable ss evs
  refine ⟨by omega, hs, ?_, ?_, ?_, fifty_ticks⟩
  · intro hq
    have hn : (processThrottleQueue ss evs).ss.throttleNext.2 = none := by
      rw [(throttleNext_result _).1, hq]; rfl
    unfold processThrottleQueueStep
    by_cases hfull : (processThrottleQueue ss evs).max.held + 1
        ≤ (processThrottleQueue ss evs).max.capacity
    · simp [Semaphore.TryAcquire, hfull, hn, Semaphore.Release]
    · simp [Semaphore.TryAcquire, hfull]
  · intro i hi
    have hg : (processThrottleQueue ss evs).running.get? i
        = some ((processThrottleQueue ss evs).running.get ⟨i, hi⟩) := List.get?_eq_get hi
    have hd : (processThrottleQueue ss evs).done < 20 := by omega
    simp only [processThrottleQueueStep, hg, hd, if_true, List.length_eraseIdx, hi, and_true]
    omega
  · intro hd
    have hd0 : ¬ (processThrottleQueue ss evs).done = 0 := by omega
    simp only [processThrottleQueueStep, hd0, if_false, Semaphore.Release]
    constructor <;> omega

/-- C11 (witness): after three additions and three ticks, three queries are in flight;
the completion of the second puts a message on `done`, and its receipt gives back one
slot. -/
theorem C11_throttle_in_flight_witness :
    (processThrottleQueueStep
        (processThrottleQueue (NewSourcesService [] [] 0)
          [ThrottleEvent.add (stubSource ['A'] [] true []) testDomain ['a'],
           ThrottleEvent.add (stubSource ['B'] [] true []) testDomain ['b'],
           ThrottleEvent.add (stubSource ['C'] [] true []) testDomain ['c'],
           ThrottleEvent.tick, ThrottleEvent.tick, ThrottleEvent.tick,
           ThrottleEvent.finish 1])
        ThrottleEvent.recvDone).max.held + 1
      = (processThrottleQueue (NewSourcesService [] [] 0)
          [ThrottleEvent.add (stubSource ['A'] [] true []) testDomain ['a'],
           ThrottleEvent.add (stubSource ['B'] [] true []) testDomain ['b'],
           ThrottleEvent.add (stubSource ['C'] [] true []) testDomain ['c'],
           ThrottleEvent.tick, ThrottleEvent.tick, ThrottleEvent.tick,
           ThrottleEvent.finish 1]).max.held :=
  ((C11_throttle_in_flight (NewSourcesService [] [] 0)
      [ThrottleEvent.add (stubSource ['A'] [] true []) testDomain ['a'],
       ThrottleEvent.add (stubSource ['B'] [] true []) testDomain ['b'],
       ThrottleEvent.add (stubSource ['C'] [] true []) testDomain ['c'],
       ThrottleEvent.tick, ThrottleEvent.tick, ThrottleEvent.tick,
       ThrottleEvent.finish 1]).2.2.2.2.1 (by decide)).1

/-! ## Theorems: `handleRequest` -/

/-- The loop of `handleRequest` over the direct sources spawns one query for each
source that passes the capability test, in order, and touches nothing but the
liveness mark. -/
theorem directs_loop (now : Int) (subsrch : Bool) (domain name : Str)
    (srcs : List DataSource) (acc : SourcesService × List (DataSource × Str × Str)) :
    (srcs.foldl
        (fun (acc : SourcesService × List (DataSource × Str × Str)) source =>
          if subsrch && !source.Subdomains then acc
          else ({ acc.1 with base := acc.1.base.SetActive now },
                acc.2 ++ [(source, domain, name)]))
        acc).2
      = acc.2 ++ (srcs.filter (fun s => s.Subdomains || !subsrch)).map
          (fun s => (s, domain, name)) ∧
    (srcs.foldl
        (fun (acc : SourcesService × List (DataSource × Str × Str)) source =>
          if subsrch && !source.Subdomains then acc
          else ({ acc.1 with base := acc.1.base.SetActive now },
                acc.2 ++ [(source, domain, name)]))
        acc).1.throttleQueue = acc.1.throttleQueue ∧
    (srcs.foldl
        (fun (acc : SourcesService × List (DataSource × Str × Str)) source =>
          if subsrch && !source.Subdomains then acc
          else ({ acc.1 with base := acc.1.base.SetActive now },
                acc.2 ++ [(source, domain, name)]))
        acc).1.throttles = acc.1.throttles := by
  induction srcs generalizing acc with
  | nil => simp
  | cons s rest ih =>
    simp only [List.foldl_cons]
    by_cases hc : (subsrch && !s.Subdomains) = true
    · rw [if_pos hc]
      obtain ⟨h1, h2, h3⟩ := ih acc
      refine ⟨?_, h2, h3⟩
      rw [h1]
      have : (s.Subdomains || !subsrch) = false := by
        cases hs : s.Subdomains <;> cases hb : subsrch <;> simp_all
      simp [List.filter_cons, this]
    · rw [if_neg hc]
      obtain ⟨h1, h2, h3⟩ := ih ({ acc.1 with base := acc.1.base.SetActive now },
        acc.2 ++ [(s, domain, name)])
      refine ⟨?_, h2, h3⟩
      rw [h1]
      have : (s.Subdomains || !subsrch) = true := by
        cases hs : s.Subdomains <;> cases hb : subsrch <;> simp_all
      simp [List.filter_cons, this]

/-- The loop of `handleRequest` over the throttled sources queues one entry for each
source that passes the capability test, in order. -/
theorem throttles_loop (subsrch : Bool) (domain name : Str) (srcs : List DataSource)
    (st : SourcesService) :
    (srcs.foldl
        (fun (st : SourcesService) source =>
          if subsrch && !source.Subdomains then st
          else st.throttleAdd source domain name)
        st).throttleQueue
      = st.throttleQueue ++ (srcs.filter (fun s => s.Subdomains || !subsrch)).map
          (fun s => { Source := s, Domain := domain, Sub := name }) := by
  induction srcs generalizing st with
  | nil => simp
  | cons s rest ih =>
    simp only [List.foldl_cons]
    by_cases hc : (subsrch && !s.Subdomains) = true
    · rw [if_pos hc, ih]
      have : (s.Subdomains || !subsrch) = false := by
        cases hs : s.Subdomains <;> cases hb : subsrch <;> simp_all
      simp [List.filter_cons, this]
    · rw [if_neg hc, ih]
      have : (s.Subdomains || !subsrch) = true := by
        cases hs : s.Subdomains <;> cases hb : subsrch <;> simp_all
      simp [List.filter_cons, this, throttleAdd_queue]

/-- C13: `handleRequest` spawns no query and queues no throttle entry when the name was
already accepted by the intake filter or is out of scope; otherwise it spawns exactly
one query, for the request's domain and name, to each direct source that accepts
subdomain queries, or to every direct source when the name is the root domain, and it
queues one throttle entry for each throttled source passing the same test when the
request carries at least one resolution record, and none when it carries no record. -/
theorem C13_handleRequest_dispatch (cfg : AmassConfig) (now : Int) (ss : SourcesService)
    (req : AmassRequest) :
    ((req.Name ∈ ss.filter.seen ∨ cfg.IsDomainInScope req.Name = false) →
      (ss.handleRequest cfg now req).2 = [] ∧
      (ss.handleRequest cfg now req).1.throttleQueue = ss.throttleQueue) ∧
    ((req.Name ∉ ss.filter.seen ∧ cfg.IsDomainInScope req.Name = true) →
      (ss.handleRequest cfg now req).2
        = (ss.directs.filter (fun s => s.Subdomains || decide (req.Name = req.Domain))).map
            (fun s => (s, req.Domain, req.Name)) ∧
      (req.Records ≠ [] →
        (ss.handleRequest cfg now req).1.throttleQueue
          = ss.throttleQueue
            ++ (ss.throttles.filter
                  (fun s => s.Subdomains || decide (req.Name = req.Domain))).map
                (fun s => { Source := s, Domain := req.Domain, Sub := req.Name })) ∧
      (req.Records = [] →
        (ss.handleRequest cfg now req).1.throttleQueue = ss.throttleQueue)) := by
  constructor
  · intro h
    unfold SourcesService.handleRequest
    by_cases hd : req.Name ∈ ss.filter.seen
    · simp [StringFilter.Duplicate, hd]
    · rcases h with h | h
      · exact absurd h hd
      · simp [StringFilter.Duplicate, hd, h]
  · rintro ⟨hd, hs⟩
    have hsub : ∀ s : DataSource,
        (s.Subdomains || !decide (req.Name ≠ req.Domain))
          = (s.Subdomains || decide (req.Name = req.Domain)) := by
      intro s; by_cases he : req.Name = req.Domain <;> simp [he]
    unfold SourcesService.handleRequest
    simp only [StringFilter.Duplicate, hd, if_false, hs, Bool.not_true, Bool.or_self,
      Bool.false_eq_true]
    obtain ⟨h1, h2, h3⟩ := directs_loop now (decide (req.Name ≠ req.Domain)) req.Domain
      req.Name ss.directs ({ ss with filter := { seen := req.Name :: ss.filter.seen } }, [])
    simp only [hsub, List.nil_append] at h1
    by_cases hr : req.Records = []
    · simp only [hr, List.length_nil, if_true]
      refine ⟨h1, fun hne => absurd rfl hne, fun _ => h2⟩
    · have hlen : ¬ req.Records.length = 0 := by
        intro h0; exact hr (List.length_eq_zero.mp h0)
      simp only [hlen, if_false]
      refine ⟨h1, fun _ => ?_, fun he => absurd he hr⟩
      rw [throttles_loop, h2, h3]
      simp only [hsub]

/-- C13 (witness): a resolved request for `www.test.com` under `test.com`, with one
direct source that accepts subdomain queries, one that does not, and one throttled
source: the queries spawned are those of the capability test on the direct sources. -/
theorem C13_handleRequest_dispatch_witness :
    ((NewSourcesService
          [stubSource ['A'] ['s'] true [], stubSource ['B'] ['s'] false [],
            stubSource ['W'] ['a'] true []] ['a'] 0).handleRequest
        exampleConfig 0 (exampleRequest "www.test.com" "test.com")).2
      = ((NewSourcesService
          [stubSource ['A'] ['s'] true [], stubSource ['B'] ['s'] false [],
            stubSource ['W'] ['a'] true []] ['a'] 0).directs.filter
          (fun s => s.Subdomains
            || decide ((exampleRequest "www.test.com" "test.com").Name
                = (exampleRequest "www.test.com" "test.com").Domain))).map
          (fun s => (s, (exampleRequest "www.test.com" "test.com").Domain,
            (exampleRequest "www.test.com" "test.com").Name)) :=
  ((C13_handleRequest_dispatch exampleConfig 0
      (NewSourcesService
        [stubSource ['A'] ['s'] true [], stubSource ['B'] ['s'] false [],
          stubSource ['W'] ['a'] true []] ['a'] 0)
      (exampleRequest "www.test.com" "test.com")).2 ⟨by decide, rfl⟩).1


/-! ## Theorems: `handleOutput` -/

/-- A key, the name followed by the source, can be taken apart in one way only when
neither source is a proper suffix of the other. -/
theorem key_unique (n1 n2 s1 s2 : Str) (h12 : s1 <:+ s2 → s1 = s2)
    (h21 : s2 <:+ s1 → s2 = s1) (h : n1 ++ s1 = n2 ++ s2) : n1 = n2 ∧ s1 = s2 := by
  rcases List.append_eq_append_iff.mp h with ⟨a, hn, hs⟩ | ⟨a, hn, hs⟩
  · have e : s2 = s1 := h21 ⟨a, hs.symm⟩
    rw [e] at hs
    have ha : a = [] := List.append_left_eq_self.mp hs.symm
    subst ha
    exact ⟨by simpa using hn.symm, e.symm⟩
  · have e : s1 = s2 := h12 ⟨a, hs.symm⟩
    rw [e] at hs
    have ha : a = [] := List.append_left_eq_self.mp hs.symm
    subst ha
    exact ⟨by simpa using hn, e⟩

/-- What one call of `handleOutput` does: a result whose key, the cleaned name followed
by the source, is in the filter is dropped; any other is admitted to the filter,
acquires a token, is published and is re-fed. -/
theorem handleOutput_cases (ss : SourcesService) (r : AmassRequest) :
    (cleanName r.Name ++ r.Source ∈ ss.outfilter.seen →
      (ss.handleOutput r).2 = none ∧ (ss.handleOutput r).1.log = ss.log ∧
      (ss.handleOutput r).1.outfilter.seen = ss.outfilter.seen) ∧
    (cleanName r.Name ++ r.Source ∉ ss.outfilter.seen →
      (ss.handleOutput r).2 = some { r with Name := cleanName r.Name } ∧
      (ss.handleOutput r).1.log
        = ss.log ++ [Effect.maxFlowAcquire,
            Effect.publishNewName { r with Name := cleanName r.Name },
            Effect.sendRequest { r with Name := cleanName r.Name }] ∧
      (ss.handleOutput r).1.outfilter.seen
        = (cleanName r.Name ++ r.Source) :: ss.outfilter.seen) := by
  constructor
  · intro h
    simp [SourcesService.handleOutput, StringFilter.Duplicate, h]
  · intro h
    simp [SourcesService.handleOutput, StringFilter.Duplicate, h, SourcesService.emit]

/-- The filter after a sequence of results holds the keys of the results handled. -/
theorem handleOutputs_seen (rs : List AmassRequest) (ss : SourcesService) (k : Str) :
    k ∈ (handleOutputs ss rs).1.outfilter.seen ↔
      (k ∈ ss.outfilter.seen ∨ k ∈ rs.map (fun r => cleanName r.Name ++ r.Source)) := by
  induction rs generalizing ss with
  | nil => simp [handleOutputs]
  | cons r rs ih =>
    simp only [handleOutputs, List.map_cons, List.mem_cons]
    rw [ih]
    obtain ⟨h1, h2⟩ := handleOutput_cases ss r
    by_cases hk : cleanName r.Name ++ r.Source ∈ ss.outfilter.seen
    · rw [(h1 hk).2.2]
      constructor
      · rintro (h | h)
        · exact Or.inl h
        · exact Or.inr (Or.inr h)
      · rintro (h | h | h)
        · exact Or.inl h
        · exact Or.inl (h ▸ hk)
        · exact Or.inr h
    · rw [(h2 hk).2.2]
      simp only [List.mem_cons]
      tauto

/-- A result is dropped exactly when an earlier result had the same key. -/
theorem handleOutput_dropped_iff (ss : SourcesService) (hfresh : ss.outfilter.seen = [])
    (pre : List AmassRequest) (r : AmassRequest) :
    ((handleOutputs ss pre).1.handleOutput r).2 = none ↔
      ∃ p ∈ pre, cleanName p.Name ++ p.Source = cleanName r.Name ++ r.Source := by
  have hseen := handleOutputs_seen pre ss (cleanName r.Name ++ r.Source)
  rw [hfresh] at hseen
  simp only [List.not_mem_nil, false_or, List.mem_map] at hseen
  obtain ⟨h1, h2⟩ := handleOutput_cases (handleOutputs ss pre).1 r
  constructor
  · intro hnone
    by_contra hcon
    have hk : cleanName r.Name ++ r.Source ∉ (handleOutputs ss pre).1.outfilter.seen :=
      fun h => hcon (hseen.mp h)
    rw [(h2 hk).1] at hnone
    exact Option.noConfusion hnone
  · intro hex
    exact (h1 (hseen.mpr hex)).1

/-- C14 (amended): over every sequence of results handled by `handleOutput` on a new
service, a result with the same normalised name and the same source as an earlier
result is dropped (nothing is acquired, published or re-fed); when no source name among
the results is a proper suffix of another, a result is dropped exactly when an earlier
result had the same normalised name and the same source; and every result that is not
dropped acquires exactly one admission token, is published as `NEWNAME` exactly once
and is re-fed to the service's own queue exactly once, in that order. -/
theorem C14_handleOutput_amended (all : List DataSource) (ARCHIVE : Str) (now : Int)
    (results : List AmassRequest) :
    (∀ pre r post, results = pre ++ r :: post →
      (∃ p ∈ pre, cleanName p.Name = cleanName r.Name ∧ p.Source = r.Source) →
      ((handleOutputs (NewSourcesService all ARCHIVE now) pre).1.handleOutput r).2 = none ∧
      ((handleOutputs (NewSourcesService all ARCHIVE now) pre).1.handleOutput r).1.log
        = (handleOutputs (NewSourcesService all ARCHIVE now) pre).1.log) ∧
    ((∀ x ∈ results, ∀ y ∈ results, x.Source <:+ y.Source → x.Source = y.Source) →
      ∀ pre r post, results = pre ++ r :: post →
        (((handleOutputs (NewSourcesService all ARCHIVE now) pre).1.handleOutput r).2 = none ↔
          ∃ p ∈ pre, cleanName p.Name = cleanName r.Name ∧ p.Source = r.Source)) ∧
    (∀ pre r post, results = pre ++ r :: post →
      ((handleOutputs (NewSourcesService all ARCHIVE now) pre).1.handleOutput r).2 ≠ none →
      ((handleOutputs (NewSourcesService all ARCHIVE now) pre).1.handleOutput r).2
        = some { r with Name := cleanName r.Name } ∧
      ((handleOutputs (NewSourcesService all ARCHIVE now) pre).1.handleOutput r).1.log
        = (handleOutputs (NewSourcesService all ARCHIVE now) pre).1.log
          ++ [Effect.maxFlowAcquire,
              Effect.publishNewName { r with Name := cleanName r.Name },
              Effect.sendRequest { r with Name := cleanName r.Name }]) := by
  have hfresh : (NewSourcesService all ARCHIVE now).outfilter.seen = [] := rfl
  refine ⟨?_, ?_, ?_⟩
  · rintro pre r post _ ⟨p, hp, hn, hs⟩
    have hd := (handleOutput_dropped_iff _ hfresh pre r).mpr ⟨p, hp, by rw [hn, hs]⟩
    refine ⟨hd, ?_⟩
    obtain ⟨h1, h2⟩ := handleOutput_cases (handleOutputs (NewSourcesService all ARCHIVE now) pre).1 r
    by_cases hk : cleanName r.Name ++ r.Source
        ∈ (handleOutputs (NewSourcesService all ARCHIVE now) pre).1.outfilter.seen
    · exact (h1 hk).2.1
    · rw [(h2 hk).1] at hd
      exact Option.noConfusion hd
  · intro hsuf pre r post hres
    rw [handleOutput_dropped_iff _ hfresh pre r]
    constructor
    · rintro ⟨p, hp, hkey⟩
      have hpr : p ∈ results := by rw [hres]; exact List.mem_append_left _ hp
      have hrr : r ∈ results := by rw [hres]; simp
      obtain ⟨e1, e2⟩ := key_unique _ _ _ _ (hsuf p hpr r hrr) (hsuf r hrr p hpr) hkey
      exact ⟨p, hp, e1, e2⟩
    · rintro ⟨p, hp, hn, hs⟩
      exact ⟨p, hp, by rw [hn, hs]⟩
  · intro pre r post _ hne
    obtain ⟨h1, h2⟩ := handleOutput_cases (handleOutputs (NewSourcesService all ARCHIVE now) pre).1 r
    by_cases hk : cleanName r.Name ++ r.Source
        ∈ (handleOutputs (NewSourcesService all ARCHIVE now) pre).1.outfilter.seen
    · exact absurd (h1 hk).1 hne
    · exact ⟨(h2 hk).1, (h2 hk).2.1⟩

/-- None of the names of the sources in `exalead.go`, `certspotter.go`, `dnsdumpster.go`
and `dogpile.go` is a proper suffix of another. -/
theorem source_names_suffix_free :
    ∀ x ∈ ["Exalead".toList, "CertSpotter".toList, "DNSDumpster".toList, "Dogpile".toList],
    ∀ y ∈ ["Exalead".toList, "CertSpotter".toList, "DNSDumpster".toList, "Dogpile".toList],
      x <:+ y → x = y := by
  decide

/-- C14 (witness): `Exalead` returns `École.test.com`, `Dogpile` returns
`école.test.com`, and `Exalead` returns `école.test.com`: the second result is kept,
its source being new, and the third is dropped, the first having the same normalised
name and source. -/
theorem C14_handleOutput_amended_witness :
    ¬ ((handleOutputs (NewSourcesService [] [] 0)
        [resultOf "Exalead" "École.test.com"]).1.handleOutput
      (resultOf "Dogpile" "école.test.com")).2 = none ∧
    ((handleOutputs (NewSourcesService [] [] 0)
        [resultOf "Exalead" "École.test.com", resultOf "Dogpile" "école.test.com"]).1.handleOutput
      (resultOf "Exalead" "école.test.com")).2 = none :=
  ⟨fun hnone =>
      absurd
        (((C14_handleOutput_amended [] [] 0
            [resultOf "Exalead" "École.test.com", resultOf "Dogpile" "école.test.com",
              resultOf "Exalead" "école.test.com"]).2.1
          (by decide)
          [resultOf "Exalead" "École.test.com"]
          (resultOf "Dogpile" "école.test.com") [resultOf "Exalead" "école.test.com"] rfl).mp
          hnone)
        (by decide),
    ((C14_handleOutput_amended [] [] 0
        [resultOf "Exalead" "École.test.com", resultOf "Dogpile" "école.test.com",
          resultOf "Exalead" "école.test.com"]).2.1
      (by decide)
      [resultOf "Exalead" "École.test.com", resultOf "Dogpile" "école.test.com"]
      (resultOf "Exalead" "école.test.com") [] rfl).mpr
      ⟨resultOf "Exalead" "École.test.com", by decide, by decide, rfl⟩⟩

/-- C14 (counterexample): the source `mirror` returns `www.test.co` and the source
`irror` returns `www.test.com`; `queryOneSource` turns them into two results, and
`handleOutput` keeps the first and drops the second, although their normalised names
differ and their sources differ: the two keys, name followed by source, are the same
string. -/
theorem C14_counterexample :
    (handleOutputs (NewSourcesService [] [] 0)
        (SourcesService.queryOneSource mirrorSource testDomain testDomain
          ++ SourcesService.queryOneSource irrorSource testDomain testDomain)).2
      = [some (resultOf "mirror" "www.test.co"), none] ∧
    SourcesService.queryOneSource irrorSource testDomain testDomain
      = [resultOf "irror" "www.test.com"] ∧
    cleanName (resultOf "mirror" "www.test.co").Name
      ≠ cleanName (resultOf "irror" "www.test.com").Name ∧
    (resultOf "mirror" "www.test.co").Source ≠ (resultOf "irror" "www.test.com").Source := by
  decide

/-! ## Theorems: the start and stop hooks -/

/-- C15 (amended): on a valid `Start` of a newly created service the service is marked
started first and the start hook is invoked afterwards: the hook runs once, on the
service with its `started` flag already set, `Start` returns what the hook returns, and
the flag stays set whatever the hook returns. -/
theorem C15_start_order_amended (h : Hooks) (name : Str) (now : Int) :
    ((NewBaseAmassService name now).Start h).1.log = [LifeEvent.hookOnStart true] ∧
    ((NewBaseAmassService name now).Start h).2
      = (h.onStart { NewBaseAmassService name now with started := true }).map Err.hook ∧
    ((NewBaseAmassService name now).Start h).1.started = true := by
  simp [BaseAmassService.Start, BaseAmassService.isStarted, BaseAmassService.isStopped,
    NewBaseAmassService, BaseAmassService.emit]

/-- C15 (counterexample): a start hook that reports the `started` flag finds it set
while it runs, on the first `Start` of a new service. -/
theorem C15_counterexample :
    ((NewBaseAmassService "Subdomain Service".toList 0).Start probeHooks).2
      = some (Err.hook "started flag is set".toList) ∧
    ((NewBaseAmassService "Subdomain Service".toList 0).Start probeHooks).1.log
      = [LifeEvent.hookOnStart true] := by
  decide

/-- C16: after `SubdomainService.OnStart` followed by `SubdomainService.OnStop` the
handler `performCheck` is still subscribed to `RESOLVED`, whatever was on the bus
before: `OnStop` unsubscribes it from `CHECKED`, where `OnStart` never put it; on an
empty bus that subscription is all that is left, the other two being removed, while
the hooks of the sources service leave no subscription behind. -/
theorem C16_onStop_leaves_performCheck (bus : Bus) :
    (Topic.RESOLVED, Handler.subdomainPerformCheck)
      ∈ (SubdomainService.OnStop (SubdomainService.OnStart bus).1).1 ∧
    (SubdomainService.OnStop (SubdomainService.OnStart []).1).1
      = [(Topic.RESOLVED, Handler.subdomainPerformCheck)] ∧
    (∃ s ∈ (SubdomainService.OnStop (SubdomainService.OnStart []).1).1,
      s.2.ofSubdomainService = true) ∧
    (SourcesService.OnStop (SourcesService.OnStart []).1).1 = [] := by
  refine ⟨?_, by decide, ⟨(Topic.RESOLVED, Handler.subdomainPerformCheck), by decide, rfl⟩,
    by decide⟩
  simp only [SubdomainService.OnStop, SubdomainService.OnStart, Bus.Unsubscribe,
    Bus.SubscribeAsync]
  apply (List.mem_erase_of_ne (by decide)).mpr
  apply (List.mem_erase_of_ne (by decide)).mpr
  apply (List.mem_erase_of_ne (by decide)).mpr
  simp

end Amass
